import Mathlib

set_option maxRecDepth 100000

/-!
Shallow embedding of the miniature filesystem (`src/fs.c`).

The C program keeps, while mounted, a file descriptor onto a disk image
plus a cached superblock.  The embedding replaces the image bytes by a
structured state:

* `bitmap b`   : bit of block `b` in the allocation bitmap (block 1);
* `inodes i`   : slot `i` of the on-disk inode table (blocks 2..9);
* `data b off` : byte `off` of data block `b`;
* `free_blocks`, `free_inodes` : the cached superblock counters
  (kept as `Int`, as they are C `int`s);
* `mounted`    : whether `disk_file_descriptor >= 0`.

C strings (file names) are embedded as `List Nat` - the list of bytes
strictly before the terminating NUL.  The `name` field of an inode is the
C-string reading of its 28-byte array.  I/O never fails in the model
(the image is always large enough and `read`/`write` are total), which
matches every run in which the OS calls succeed.
-/

/-- Modelled from the spec: the compile-time constants of `fs.h` (the header
is not part of `src/`); values from spec section 3. -/
def BLOCK_SIZE : Nat := 4096

/-- Modelled from the spec: total number of blocks of the volume (`fs.h`). -/
def MAX_BLOCKS : Nat := 2560

/-- Modelled from the spec: capacity of the inode table (`fs.h`). -/
def MAX_FILES : Nat := 256

/-- Modelled from the spec: per-file direct block pointers (`fs.h`). -/
def MAX_DIRECT_BLOCKS : Nat := 12

/-- Modelled from the spec: size of the inode name field in bytes (`fs.h`). -/
def MAX_FILENAME : Nat := 28

/-- Modelled from the spec: blocks 0..9 hold superblock, bitmap, inode table. -/
def METADATA_BLOCKS : Nat := 10

/-- One slot of the inode table (`inode` in `fs.h`).  `name` is the C-string
reading of the 28-byte name array; `blk j` is `blocks[j]` (only indices
`j < MAX_DIRECT_BLOCKS` are meaningful). -/
structure inode where
  used : Bool
  name : List Nat
  size : Nat
  blk : Nat → Nat

/-- The all-zero inode slot (`inode x = {0}` in C). -/
def zeroInode : inode := { used := false, name := [], size := 0, blk := fun _ => 0 }

/-- The state of the mounted volume: the image contents plus the cached
superblock (`current_superblock`) and the mount flag
(`disk_file_descriptor >= 0`). -/
structure FSState where
  mounted : Bool
  free_blocks : Int
  free_inodes : Int
  bitmap : Nat → Bool
  inodes : Nat → inode
  data : Nat → Nat → Nat

/-- `compare_strings` from `fs.c`: byte-wise comparison of two NUL-terminated
strings, returning `*str1 - *str2` at the first difference. -/
def compare_strings : List Nat → List Nat → Int
  | [], [] => 0
  | [], c :: _ => 0 - (c : Int)
  | c :: _, [] => (c : Int)
  | c :: s1, d :: s2 => if c = d then compare_strings s1 s2 else (c : Int) - (d : Int)

/-- `find_inode_by_name` from `fs.c`: ascending scan of the inode table for a
used slot whose stored name compares equal to the query; `none` is the `-1`
sentinel. -/
def find_inode_by_name (s : FSState) (i_name : List Nat) : Option Nat :=
  if ¬ s.mounted then none
  else (List.range MAX_FILES).find? fun i =>
    (s.inodes i).used && (compare_strings (s.inodes i).name i_name == 0)

/-- `find_free_inode` from `fs.c`: ascending scan for the first unused slot;
`none` is the `-1` sentinel. -/
def find_free_inode (s : FSState) : Option Nat :=
  if ¬ s.mounted then none
  else (List.range MAX_FILES).find? fun i => !(s.inodes i).used

/-- `validate_block_number_and_filesystem` from `fs.c` (block numbers are
embedded as `Nat`, so the `< 0` test is dropped). -/
def validate_block_number_and_filesystem (s : FSState) (i_block_num : Nat) : Int :=
  if ¬ s.mounted ∨ MAX_BLOCKS ≤ i_block_num then -1 else 0

/-- `find_free_block` from `fs.c`: first clear bitmap bit scanning ascending
from block 10; `-1` when every data block is taken. -/
def find_free_block (s : FSState) : Int :=
  if validate_block_number_and_filesystem s 0 ≠ 0 then -1
  else
    match (List.range' METADATA_BLOCKS (MAX_BLOCKS - METADATA_BLOCKS)).find?
        (fun block_index => !(s.bitmap block_index)) with
    | some block_index => (block_index : Int)
    | none => -1

/-- `mark_block_as_used` from `fs.c`: read-modify-write of the bitmap block
setting bit `block_index`; silently a no-op on invalid input. -/
def mark_block_as_used (s : FSState) (block_index : Nat) : FSState :=
  if validate_block_number_and_filesystem s block_index ≠ 0 then s
  else { s with bitmap := Function.update s.bitmap block_index true }

/-- `mark_block_as_free` from `fs.c`: read-modify-write of the bitmap block
clearing bit `block_index`; silently a no-op on invalid input. -/
def mark_block_as_free (s : FSState) (block_index : Nat) : FSState :=
  if validate_block_number_and_filesystem s block_index ≠ 0 then s
  else { s with bitmap := Function.update s.bitmap block_index false }

/-- `fs_create` from `fs.c`.  The name is a `List Nat` (a NULL pointer is not
representable; the `filename == NULL` branch is the same `-3` as the empty
name).  Returns the status code and the next state. -/
def fs_create (s : FSState) (filename : List Nat) : Int × FSState :=
  if ¬ s.mounted then (-3, s)
  else if filename.length = 0 ∨ filename.length > MAX_FILENAME then (-3, s)
  else if (find_inode_by_name s filename).isSome then (-1, s)
  else
    match find_free_inode s with
    | none => (-2, s)
    | some free_inode_index =>
      let new_inode : inode :=
        { used := true
          name := filename.take (MAX_FILENAME - 1)
          size := 0
          blk := fun _ => 0 }
      (0, { s with
              inodes := Function.update s.inodes free_inode_index new_inode
              free_inodes := s.free_inodes - 1 })

/-- `fs_list` from `fs.c`: collect the names of used slots in table order,
stopping once `max_files` entries have been produced.  Each produced name is
the stored name truncated to `MAX_FILENAME - 1` bytes (the forced NUL at
index `MAX_FILENAME - 1`). -/
def fs_list (s : FSState) (max_files : Int) : Int × List (List Nat) :=
  if ¬ s.mounted then (-1, [])
  else
    let filenames := (List.range MAX_FILES).foldl
      (fun acc i =>
        if acc.length < max_files.toNat ∧ (s.inodes i).used then
          acc ++ [(s.inodes i).name.take (MAX_FILENAME - 1)]
        else acc) []
    ((filenames.length : Int), filenames)

/-- The block-reading loop of `fs_read` in `fs.c`: the list argument holds
`blocks[0..blocks_to_read)`; `total` is `total_bytes_read` so far.  Returns
the copied bytes, or `none` for the `-3` invalid-block-pointer error. -/
def fs_read_blocks_loop (data : Nat → Nat → Nat) (bytes_to_read : Nat) :
    List Nat → Nat → Option (List Nat)
  | [], _ => some []
  | block_number :: rest, total =>
    if block_number < 10 ∨ MAX_BLOCKS ≤ block_number then none
    else
      let remaining_bytes := bytes_to_read - total
      let bytes_from_this_block := min BLOCK_SIZE remaining_bytes
      let chunk := (List.range bytes_from_this_block).map fun off => data block_number off
      match fs_read_blocks_loop data bytes_to_read rest (total + bytes_from_this_block) with
      | none => none
      | some rest_bytes => some (chunk ++ rest_bytes)

/-- `fs_read` from `fs.c`.  Returns the status code (`total_bytes_read` on
success) together with the bytes copied into the caller's buffer. -/
def fs_read (s : FSState) (filename : List Nat) (size : Int) : Int × List Nat :=
  if ¬ s.mounted then (-1, [])
  else if filename.length = 0 ∨ filename.length > MAX_FILENAME ∨ size ≤ 0 then (-3, [])
  else
    match find_inode_by_name s filename with
    | none => (-1, [])
    | some inode_index =>
      let current_file_inode := s.inodes inode_index
      let bytes_to_read := min size.toNat current_file_inode.size
      if bytes_to_read = 0 then (0, [])
      else
        let blocks_to_read := (bytes_to_read + BLOCK_SIZE - 1) / BLOCK_SIZE
        match fs_read_blocks_loop s.data bytes_to_read
            ((List.range blocks_to_read).map current_file_inode.blk) 0 with
        | none => (-3, [])
        | some bytes => ((bytes.length : Int), bytes)

/-- `validate_write_operation_parameters` from `fs.c` (the `data == NULL`
branch is not representable and is dropped). -/
def validate_write_operation_parameters (s : FSState) (filename : List Nat)
    (size : Int) : Int :=
  if ¬ s.mounted then -3
  else if filename.length = 0 ∨ filename.length > MAX_FILENAME ∨ size ≤ 0 then -3
  else if size > ((MAX_DIRECT_BLOCKS * BLOCK_SIZE : Nat) : Int) then -2
  else 0

/-- `check_available_space_for_write_operation` from `fs.c`. -/
def check_available_space_for_write_operation (s : FSState) (blocks_needed : Nat)
    (current_file_size : Nat) : Int :=
  let current_file_blocks := (current_file_size + BLOCK_SIZE - 1) / BLOCK_SIZE
  if (blocks_needed : Int) > s.free_blocks + (current_file_blocks : Int) then -2 else 0

/-- Loop body of `free_file_existing_blocks` in `fs.c`: free block pointer `i`
of the inode if it is non-zero and in range, bumping the cached counter. -/
def free_file_blocks_step (p : FSState × inode) (i : Nat) : FSState × inode :=
  if p.2.blk i ≠ 0 ∧ p.2.blk i < MAX_BLOCKS then
    let st := mark_block_as_free p.1 (p.2.blk i)
    ({ st with free_blocks := st.free_blocks + 1 },
     { p.2 with blk := Function.update p.2.blk i 0 })
  else p

/-- `free_file_existing_blocks` from `fs.c` (always returns 0 in the model, as
the inode argument cannot be NULL; the status code is therefore dropped). -/
def free_file_existing_blocks (s : FSState) (file_inode : inode) : FSState × inode :=
  let old_blocks_count := (file_inode.size + BLOCK_SIZE - 1) / BLOCK_SIZE
  (List.range old_blocks_count).foldl free_file_blocks_step (s, file_inode)

/-- Loop body of the rollback in `allocate_blocks_for_file` (`fs.c`): free the
block taken at position `rollback_iterator`, restore the counter, zero the
pointer. -/
def allocate_blocks_rollback_step (p : FSState × inode) (rollback_iterator : Nat) :
    FSState × inode :=
  let st := mark_block_as_free p.1 (p.2.blk rollback_iterator)
  ({ st with free_blocks := st.free_blocks + 1 },
   { p.2 with blk := Function.update p.2.blk rollback_iterator 0 })

/-- The rollback loop of `allocate_blocks_for_file` in `fs.c`: free the `j`
blocks taken so far, restore the counter, zero the pointers. -/
def allocate_blocks_rollback (s : FSState) (file_inode : inode) (j : Nat) :
    FSState × inode :=
  (List.range j).foldl allocate_blocks_rollback_step (s, file_inode)

/-- The allocation loop of `allocate_blocks_for_file` in `fs.c`: `k` blocks
remain to be allocated, `j` block pointers are already filled. -/
def allocate_blocks_go : Nat → Nat → FSState → inode → Int × FSState × inode
  | 0, _, s, nd => (0, s, nd)
  | k + 1, j, s, nd =>
    let new_block_number := find_free_block s
    if new_block_number < 0 then
      let p := allocate_blocks_rollback s nd j
      (-2, p.1, p.2)
    else
      let b := new_block_number.toNat
      let st := mark_block_as_used s b
      allocate_blocks_go k (j + 1) { st with free_blocks := st.free_blocks - 1 }
        { nd with blk := Function.update nd.blk j b }

/-- `allocate_blocks_for_file` from `fs.c`. -/
def allocate_blocks_for_file (s : FSState) (file_inode : inode)
    (blocks_needed : Nat) : Int × FSState × inode :=
  if blocks_needed = 0 then (-3, s, file_inode)
  else allocate_blocks_go blocks_needed 0 s file_inode

/-- `write_data_to_allocated_blocks` from `fs.c`: each of the `blocks_needed`
blocks receives a full `BLOCK_SIZE` buffer holding the next payload slice,
zero-padded past the payload.  Block offsets at and beyond `BLOCK_SIZE` are
never read back and are stored as zero. -/
def write_data_to_allocated_blocks (s : FSState) (file_inode : inode)
    (data : List Nat) (size : Nat) (blocks_needed : Nat) : Int × FSState :=
  if size = 0 ∨ blocks_needed = 0 then (-3, s)
  else
    (0, { s with
          data := (List.range blocks_needed).foldl
            (fun d block_iterator =>
              Function.update d (file_inode.blk block_iterator)
                (fun off =>
                  if block_iterator * BLOCK_SIZE + off < size ∧ off < BLOCK_SIZE then
                    data.getD (block_iterator * BLOCK_SIZE + off) 0
                  else 0))
            s.data })

/-- `fs_write` from `fs.c`: whole-file replace.  `data` is the payload byte
sequence, `size` the byte count argument. -/
def fs_write (s : FSState) (filename : List Nat) (data : List Nat) (size : Int) :
    Int × FSState :=
  let isValidInput := validate_write_operation_parameters s filename size
  if isValidInput ≠ 0 then (isValidInput, s)
  else
    match find_inode_by_name s filename with
    | none => (-1, s)
    | some inode_index =>
      let current_file_inode := s.inodes inode_index
      let sz := size.toNat
      let blocks_needed := (sz + BLOCK_SIZE - 1) / BLOCK_SIZE
      let free_space_check :=
        check_available_space_for_write_operation s blocks_needed current_file_inode.size
      if free_space_check < 0 then (free_space_check, s)
      else
        let p1 := free_file_existing_blocks s current_file_inode
        match allocate_blocks_for_file p1.1 p1.2 blocks_needed with
        | (allocate_code, s2, ino2) =>
          if allocate_code < 0 then (allocate_code, s2)
          else
            let p3 := write_data_to_allocated_blocks s2 ino2 data sz blocks_needed
            if p3.1 < 0 then (p3.1, p3.2)
            else
              let ino3 := { ino2 with size := sz }
              (0, { p3.2 with inodes := Function.update p3.2.inodes inode_index ino3 })

/-- `fs_delete` from `fs.c` (in the model `free_file_existing_blocks` always
succeeds, so its `-2` propagation branch is never taken). -/
def fs_delete (s : FSState) (filename : List Nat) : Int × FSState :=
  if ¬ s.mounted then (-2, s)
  else if filename.length = 0 ∨ filename.length > MAX_FILENAME then (-2, s)
  else
    match find_inode_by_name s filename with
    | none => (-1, s)
    | some inode_index =>
      let file_inode_to_delete := s.inodes inode_index
      let p := free_file_existing_blocks s file_inode_to_delete
      (0, { p.1 with
              inodes := Function.update p.1.inodes inode_index zeroInode
              free_inodes := p.1.free_inodes + 1 })

/-- The state produced by `fs_format` followed by `fs_mount` in `fs.c`: all
data zeroed, bitmap bits 0..9 set, inode table zeroed,
`free_blocks = MAX_BLOCKS - 10`, `free_inodes = MAX_FILES`. -/
def fs_format_state : FSState :=
  { mounted := true
    free_blocks := (MAX_BLOCKS : Int) - 10
    free_inodes := (MAX_FILES : Int)
    bitmap := fun b => decide (b < 10)
    inodes := fun _ => zeroInode
    data := fun _ _ => 0 }

/-- Number of set bits in the allocation bitmap among block indices in
`[METADATA_BLOCKS, MAX_BLOCKS)` (the popcount of spec property P1). -/
def popcountData (s : FSState) : Nat :=
  (List.range' METADATA_BLOCKS (MAX_BLOCKS - METADATA_BLOCKS)).countP fun b => s.bitmap b

/-- A C string: a byte list with no embedded NUL (every byte non-zero). -/
def CStr (n : List Nat) : Prop := ∀ b ∈ n, b ≠ 0

/-- One call of the public API, for observational-equivalence statements. -/
inductive FSOp where
  | create (n : List Nat)
  | list (max_files : Int)
  | read (n : List Nat) (size : Int)
  | write (n : List Nat) (data : List Nat) (size : Int)
  | delete (n : List Nat)

/-- What one API call returns to its caller: the status code, the names
filled by `fs_list`, and the bytes filled by `fs_read`. -/
def FSOutput := Int × List (List Nat) × List Nat

/-- Run one public API call, returning its visible output and the next state. -/
def runOp (s : FSState) : FSOp → FSOutput × FSState
  | .create n => (((fs_create s n).1, [], []), (fs_create s n).2)
  | .list m => (((fs_list s m).1, (fs_list s m).2, []), s)
  | .read n sz => (((fs_read s n sz).1, [], (fs_read s n sz).2), s)
  | .write n d sz => (((fs_write s n d sz).1, [], []), (fs_write s n d sz).2)
  | .delete n => (((fs_delete s n).1, [], []), (fs_delete s n).2)

/-- The outputs of a sequence of public API calls started in state `s`. -/
def runOps (s : FSState) : List FSOp → List FSOutput
  | [] => []
  | op :: rest => (runOp s op).1 :: runOps (runOp s op).2 rest

/-- Two states that the public API cannot tell apart: they agree everywhere
except possibly on the contents (name, size, block list) of unused inode
slots, which no operation ever reads. -/
def ObsEquiv (s t : FSState) : Prop :=
  s.mounted = t.mounted ∧
  s.free_blocks = t.free_blocks ∧
  s.free_inodes = t.free_inodes ∧
  s.bitmap = t.bitmap ∧
  s.data = t.data ∧
  (∀ i, (s.inodes i).used = (t.inodes i).used) ∧
  (∀ i, (s.inodes i).used = true → s.inodes i = t.inodes i)

/-- States reachable from a freshly formatted, mounted image through the
mutating public operations (names are C strings, hence NUL-free;
`fs_list`/`fs_read` do not change the state). -/
inductive Reachable : FSState → Prop where
  | init : Reachable fs_format_state
  | create {s} (n : List Nat) : Reachable s → CStr n → Reachable (fs_create s n).2
  | write {s} (n : List Nat) (d : List Nat) (sz : Int) :
      Reachable s → CStr n → Reachable (fs_write s n d sz).2
  | delete {s} (n : List Nat) : Reachable s → CStr n → Reachable (fs_delete s n).2

/-- The allocator/accounting invariant of reachable states: the volume is
mounted, the cached `free_blocks` mirrors the bitmap, and every used inode
has a well-formed name and `⌈size/BLOCK_SIZE⌉` in-range, set, pairwise
distinct leading block pointers (spec properties P1, P3, P4). -/
def FSInv (s : FSState) : Prop :=
  s.mounted = true ∧
  s.free_blocks = ((MAX_BLOCKS - METADATA_BLOCKS : Nat) : Int) - (popcountData s : Int) ∧
  (∀ i, i < MAX_FILES → (s.inodes i).used = true →
    (s.inodes i).size ≤ MAX_DIRECT_BLOCKS * BLOCK_SIZE ∧
    1 ≤ (s.inodes i).name.length ∧
    (s.inodes i).name.length ≤ MAX_FILENAME - 1 ∧
    CStr (s.inodes i).name ∧
    (∀ j, j < ((s.inodes i).size + BLOCK_SIZE - 1) / BLOCK_SIZE →
      10 ≤ (s.inodes i).blk j ∧ (s.inodes i).blk j < MAX_BLOCKS ∧
      s.bitmap ((s.inodes i).blk j) = true) ∧
    (∀ j1 j2, j1 < j2 → j2 < ((s.inodes i).size + BLOCK_SIZE - 1) / BLOCK_SIZE →
      (s.inodes i).blk j1 ≠ (s.inodes i).blk j2)) ∧
  (∀ i1 i2, i1 < MAX_FILES → i2 < MAX_FILES → i1 ≠ i2 →
    (s.inodes i1).used = true → (s.inodes i2).used = true →
    ∀ j1 j2, j1 < ((s.inodes i1).size + BLOCK_SIZE - 1) / BLOCK_SIZE →
      j2 < ((s.inodes i2).size + BLOCK_SIZE - 1) / BLOCK_SIZE →
      (s.inodes i1).blk j1 ≠ (s.inodes i2).blk j2)

theorem mem_range'_iff {s n m : Nat} : m ∈ List.range' s n ↔ s ≤ m ∧ m < s + n := by
  rw [List.mem_range']
  constructor
  · rintro ⟨i, hi, rfl⟩; omega
  · intro h; exact ⟨m - s, by omega, by omega⟩

theorem range'_find?_eq_some (p : Nat → Bool) :
    ∀ (cnt st : Nat) (b : Nat),
      (List.range' st cnt).find? p = some b ↔
        (st ≤ b ∧ b < st + cnt ∧ p b = true ∧ ∀ c, st ≤ c → c < b → p c = false) := by
  intro cnt
  induction cnt with
  | zero =>
    intro st b
    simp only [List.range'_zero, List.find?_nil]
    constructor
    · intro h; cases h
    · intro h; omega
  | succ k ih =>
    intro st b
    rw [List.range'_succ]
    by_cases hp : p st
    · rw [List.find?_cons_of_pos _ hp]
      constructor
      · intro h
        obtain rfl : st = b := Option.some_inj.1 h
        exact ⟨le_refl _, by omega, hp, fun c h1 h2 => absurd h1 (by omega)⟩
      · rintro ⟨h1, h2, h3, h4⟩
        by_cases hb : b = st
        · subst hb; rfl
        · have := h4 st (le_refl _) (by omega)
          rw [hp] at this; cases this
    · rw [List.find?_cons_of_neg _ hp]
      rw [ih (st + 1) b]
      constructor
      · rintro ⟨h1, h2, h3, h4⟩
        refine ⟨by omega, by omega, h3, fun c hc1 hc2 => ?_⟩
        by_cases hcs : c = st
        · subst hcs; simpa using hp
        · exact h4 c (by omega) hc2
      · rintro ⟨h1, h2, h3, h4⟩
        have hbst : b ≠ st := by
          intro h; subst h; rw [h3] at hp; exact hp rfl
        exact ⟨by omega, by omega, h3, fun c hc1 hc2 => h4 c (by omega) hc2⟩

theorem range'_find?_eq_none (p : Nat → Bool) (cnt st : Nat) :
    (List.range' st cnt).find? p = none ↔
      ∀ c, st ≤ c → c < st + cnt → p c = false := by
  rw [List.find?_eq_none]
  constructor
  · intro h c h1 h2
    have := h c (mem_range'_iff.2 ⟨h1, h2⟩)
    simpa using this
  · intro h x hx
    rw [mem_range'_iff] at hx
    rw [h x hx.1 hx.2]
    simp

theorem range_find?_eq_some (p : Nat → Bool) (n b : Nat) :
    (List.range n).find? p = some b ↔
      (b < n ∧ p b = true ∧ ∀ c, c < b → p c = false) := by
  rw [List.range_eq_range', range'_find?_eq_some]
  constructor
  · rintro ⟨h1, h2, h3, h4⟩
    exact ⟨by omega, h3, fun c hc => h4 c (by omega) hc⟩
  · rintro ⟨h1, h2, h3⟩
    exact ⟨by omega, by omega, h2, fun c hc1 hc2 => h3 c hc2⟩

theorem range_find?_eq_none (p : Nat → Bool) (n : Nat) :
    (List.range n).find? p = none ↔ ∀ c, c < n → p c = false := by
  rw [List.range_eq_range', range'_find?_eq_none]
  constructor
  · intro h c hc; exact h c (by omega) (by omega)
  · intro h c hc1 hc2; exact h c (by omega)

theorem compare_strings_self : ∀ a : List Nat, compare_strings a a = 0 := by
  intro a
  induction a with
  | nil => rfl
  | cons c s ih => simpa [compare_strings] using ih

theorem compare_strings_eq_zero :
    ∀ a b : List Nat, CStr a → CStr b → compare_strings a b = 0 → a = b := by
  intro a
  induction a with
  | nil =>
    intro b _ hb h
    cases b with
    | nil => rfl
    | cons c t =>
      exfalso
      have hc : c ≠ 0 := hb c (List.mem_cons_self c t)
      simp only [compare_strings] at h
      omega
  | cons c s ih =>
    intro b ha hb h
    cases b with
    | nil =>
      exfalso
      have hc : c ≠ 0 := ha c (List.mem_cons_self c s)
      simp only [compare_strings] at h
      omega
    | cons d t =>
      simp only [compare_strings] at h
      by_cases hcd : c = d
      · subst hcd
        simp only [if_pos rfl] at h
        have := ih t (fun x hx => ha x (List.mem_cons_of_mem _ hx))
          (fun x hx => hb x (List.mem_cons_of_mem _ hx)) h
        rw [this]
      · rw [if_neg hcd] at h
        exfalso
        have : (c : Int) = (d : Int) := by omega
        exact hcd (by exact_mod_cast this)

theorem countP_congr_mem (p q : Nat → Bool) :
    ∀ l : List Nat, (∀ x ∈ l, p x = q x) → l.countP p = l.countP q := by
  intro l
  induction l with
  | nil => intro _; rfl
  | cons a t ih =>
    intro h
    rw [List.countP_cons, List.countP_cons, ih (fun x hx => h x (List.mem_cons_of_mem _ hx)),
      h a (List.mem_cons_self a t)]

theorem countP_update_not_mem (b : Nat) (bm : Nat → Bool) (v : Bool) :
    ∀ l : List Nat, b ∉ l →
      l.countP (fun x => Function.update bm b v x) = l.countP (fun x => bm x) := by
  intro l hb
  apply countP_congr_mem
  intro x hx
  have : x ≠ b := by intro h; subst h; exact hb hx
  rw [Function.update_noteq this]

theorem countP_update_of_false (b : Nat) (bm : Nat → Bool) (hb : bm b = false) :
    ∀ l : List Nat, l.Nodup → b ∈ l →
      l.countP (fun x => Function.update bm b true x) = l.countP (fun x => bm x) + 1 := by
  intro l
  induction l with
  | nil => intro _ h; cases h
  | cons a t ih =>
    intro hnd hmem
    have hnd' := List.nodup_cons.1 hnd
    rw [List.countP_cons, List.countP_cons]
    by_cases hba : b = a
    · subst hba
      have htail : t.countP (fun x => Function.update bm b true x) = t.countP (fun x => bm x) :=
        countP_update_not_mem b bm true t hnd'.1
      rw [htail, Function.update_same, hb]
      simp
    · have hmt : b ∈ t := by
        rcases List.mem_cons.1 hmem with h | h
        · exact absurd h hba
        · exact h
      rw [ih hnd'.2 hmt, Function.update_noteq (Ne.symm hba)]
      omega

theorem countP_update_of_true (b : Nat) (bm : Nat → Bool) (hb : bm b = true) :
    ∀ l : List Nat, l.Nodup → b ∈ l →
      l.countP (fun x => Function.update bm b false x) + 1 = l.countP (fun x => bm x) := by
  intro l
  induction l with
  | nil => intro _ h; cases h
  | cons a t ih =>
    intro hnd hmem
    have hnd' := List.nodup_cons.1 hnd
    rw [List.countP_cons, List.countP_cons]
    by_cases hba : b = a
    · subst hba
      have htail : t.countP (fun x => Function.update bm b false x) = t.countP (fun x => bm x) :=
        countP_update_not_mem b bm false t hnd'.1
      rw [htail, Function.update_same, hb]
      simp
    · have hmt : b ∈ t := by
        rcases List.mem_cons.1 hmem with h | h
        · exact absurd h hba
        · exact h
      rw [← ih hnd'.2 hmt, Function.update_noteq (Ne.symm hba)]
      omega

theorem foldl_update_eval {α : Type} (blk : Nat → Nat) (content : Nat → α) :
    ∀ (bn : Nat) (d0 : Nat → α) (j : Nat), j < bn →
      (∀ m1 m2, m1 < m2 → m2 < bn → blk m1 ≠ blk m2) →
      ((List.range bn).foldl (fun d it => Function.update d (blk it) (content it)) d0) (blk j)
        = content j := by
  intro bn
  induction bn with
  | zero => intro d0 j hj; omega
  | succ k ih =>
    intro d0 j hj hdist
    rw [List.range_succ, List.foldl_append]
    simp only [List.foldl_cons, List.foldl_nil]
    by_cases hjk : j = k
    · subst hjk
      rw [Function.update_same]
    · have hne : blk j ≠ blk k := hdist j k (by omega) (by omega)
      rw [Function.update_noteq hne]
      exact ih d0 j (by omega) (fun m1 m2 h1 h2 => hdist m1 m2 h1 (by omega))

theorem map_getD_range (l : List Nat) :
    (List.range l.length).map (fun o => l.getD o 0) = l := by
  apply List.ext_getElem
  · simp
  · intro i h1 h2
    simp only [List.getElem_map, List.getElem_range]
    rw [List.getD_eq_getElem l 0 (by simpa using h2)]

theorem find_free_block_eq_some (s : FSState) (h : s.mounted = true) (b : Nat)
    (h1 : METADATA_BLOCKS ≤ b) (h2 : b < MAX_BLOCKS) (h3 : s.bitmap b = false)
    (h4 : ∀ c, METADATA_BLOCKS ≤ c → c < b → s.bitmap c = true) :
    find_free_block s = (b : Int) := by
  have hval : validate_block_number_and_filesystem s 0 = 0 := by
    simp [validate_block_number_and_filesystem, h, MAX_BLOCKS]
  have hfind : (List.range' METADATA_BLOCKS (MAX_BLOCKS - METADATA_BLOCKS)).find?
      (fun block_index => !(s.bitmap block_index)) = some b := by
    rw [range'_find?_eq_some]
    refine ⟨h1, ?_, by simp [h3], fun c hc1 hc2 => by simp [h4 c hc1 hc2]⟩
    simp only [MAX_BLOCKS, METADATA_BLOCKS] at h2 ⊢
    omega
  simp [find_free_block, hval, hfind]

theorem find_free_block_eq_none (s : FSState) (h : s.mounted = true)
    (hall : ∀ b, METADATA_BLOCKS ≤ b → b < MAX_BLOCKS → s.bitmap b = true) :
    find_free_block s = -1 := by
  have hval : validate_block_number_and_filesystem s 0 = 0 := by
    simp [validate_block_number_and_filesystem, h, MAX_BLOCKS]
  have hfind : (List.range' METADATA_BLOCKS (MAX_BLOCKS - METADATA_BLOCKS)).find?
      (fun block_index => !(s.bitmap block_index)) = none := by
    rw [range'_find?_eq_none]
    intro c hc1 hc2
    have : s.bitmap c = true := by
      apply hall c hc1
      simp only [MAX_BLOCKS, METADATA_BLOCKS] at hc2 ⊢
      omega
    simp [this]
  simp [find_free_block, hval, hfind]

theorem exists_least_clear_block (s : FSState)
    (hex : ∃ c, METADATA_BLOCKS ≤ c ∧ c < MAX_BLOCKS ∧ s.bitmap c = false) :
    ∃ c, (METADATA_BLOCKS ≤ c ∧ c < MAX_BLOCKS ∧ s.bitmap c = false) ∧
      ∀ d, METADATA_BLOCKS ≤ d → d < c → s.bitmap d = true := by
  refine ⟨Nat.find hex, Nat.find_spec hex, fun d hd1 hd2 => ?_⟩
  by_contra hdf
  have hspec := Nat.find_spec hex
  have hd3 : d < MAX_BLOCKS := by omega
  have : Nat.find hex ≤ d := Nat.find_le ⟨hd1, hd3, by simpa using hdf⟩
  omega

/-- Claim C6: for a mounted filesystem, scanning strictly ascending,
`find_free_block` returns the smallest block index `b` with
`METADATA_BLOCKS ≤ b < TOTAL_BLOCKS` whose bitmap bit is clear, and the
sentinel `-1` exactly when no such index exists. -/
theorem find_free_block_correct (s : FSState) (h : s.mounted = true) :
    (∀ b : Nat,
      find_free_block s = (b : Int) ↔
        (METADATA_BLOCKS ≤ b ∧ b < MAX_BLOCKS ∧ s.bitmap b = false ∧
          ∀ c, METADATA_BLOCKS ≤ c → c < b → s.bitmap c = true))
    ∧ (find_free_block s = -1 ↔
        ∀ b, METADATA_BLOCKS ≤ b → b < MAX_BLOCKS → s.bitmap b = true) := by
  constructor
  · intro b
    constructor
    · intro hfb
      by_cases hex : ∃ c, METADATA_BLOCKS ≤ c ∧ c < MAX_BLOCKS ∧ s.bitmap c = false
      · obtain ⟨c, hc, hmin⟩ := exists_least_clear_block s hex
        have := find_free_block_eq_some s h c hc.1 hc.2.1 hc.2.2 hmin
        rw [this] at hfb
        have hbc : b = c := by exact_mod_cast hfb.symm
        subst hbc
        exact ⟨hc.1, hc.2.1, hc.2.2, hmin⟩
      · push_neg at hex
        have hnone : find_free_block s = -1 := by
          apply find_free_block_eq_none s h
          intro c hc1 hc2
          have := hex c hc1 hc2
          simpa using this
        rw [hnone] at hfb
        exfalso
        omega
    · rintro ⟨h1, h2, h3, h4⟩
      exact find_free_block_eq_some s h b h1 h2 h3 h4
  · constructor
    · intro hfb b hb1 hb2
      by_contra hbf
      have hbit : s.bitmap b = false := by simpa using hbf
      obtain ⟨c, hc, hmin⟩ := exists_least_clear_block s ⟨b, hb1, hb2, hbit⟩
      have := find_free_block_eq_some s h c hc.1 hc.2.1 hc.2.2 hmin
      rw [this] at hfb
      omega
    · intro hall
      exact find_free_block_eq_none s h hall

theorem find_free_block_correct_witness :
    fs_format_state.mounted = true ∧
    find_free_block fs_format_state = ((10 : Nat) : Int) := by
  refine ⟨rfl, ?_⟩
  refine ((find_free_block_correct fs_format_state rfl).1 10).2 ⟨by decide, by decide, by decide,
    fun c h1 h2 => ?_⟩
  exfalso
  simp only [METADATA_BLOCKS] at h1
  omega

theorem find_inode_by_name_none_iff (s : FSState) (n : List Nat) (hm : s.mounted = true) :
    find_inode_by_name s n = none ↔
      ∀ j, j < MAX_FILES →
        ((s.inodes j).used && (compare_strings (s.inodes j).name n == 0)) = false := by
  rw [find_inode_by_name, if_neg (by simp [hm])]
  exact range_find?_eq_none _ _

theorem find_inode_by_name_some_iff (s : FSState) (n : List Nat) (hm : s.mounted = true)
    (i : Nat) :
    find_inode_by_name s n = some i ↔
      (i < MAX_FILES ∧
        ((s.inodes i).used && (compare_strings (s.inodes i).name n == 0)) = true ∧
        ∀ j, j < i →
          ((s.inodes j).used && (compare_strings (s.inodes j).name n == 0)) = false) := by
  rw [find_inode_by_name, if_neg (by simp [hm])]
  exact range_find?_eq_some _ _ _

theorem find_free_inode_some_iff (s : FSState) (hm : s.mounted = true) (i : Nat) :
    find_free_inode s = some i ↔
      (i < MAX_FILES ∧ (s.inodes i).used = false ∧
        ∀ j, j < i → (s.inodes j).used = true) := by
  rw [find_free_inode, if_neg (by simp [hm])]
  rw [range_find?_eq_some]
  constructor
  · rintro ⟨h1, h2, h3⟩
    refine ⟨h1, by simpa using h2, fun j hj => by simpa using h3 j hj⟩
  · rintro ⟨h1, h2, h3⟩
    refine ⟨h1, by simp [h2], fun j hj => by simp [h3 j hj]⟩

/-- Claim C7: `fs_delete` returns `-2` (the "no-space" code doubling as
delete's generic failure) whenever the volume is unmounted or the name is
syntactically invalid (empty, or longer than what the length check admits),
and `-1` ("not-found") when mounted with a syntactically valid name that no
used inode stores. -/
theorem fs_delete_error_codes (s : FSState) (n : List Nat) :
    ((s.mounted = false ∨ n.length = 0 ∨ n.length > MAX_FILENAME) →
      (fs_delete s n).1 = -2)
    ∧ (s.mounted = true → n.length ≠ 0 → n.length ≤ MAX_FILENAME →
        find_inode_by_name s n = none → (fs_delete s n).1 = -1) := by
  constructor
  · intro h
    by_cases hm : s.mounted
    · have hname : n.length = 0 ∨ n.length > MAX_FILENAME := by
        rcases h with h | h | h
        · rw [hm] at h; cases h
        · exact Or.inl h
        · exact Or.inr h
      rw [fs_delete, if_neg (by simp [hm]), if_pos hname]
    · rw [fs_delete, if_pos (by simpa using hm)]
  · intro hm hlen1 hlen2 hfind
    have hname : ¬(n.length = 0 ∨ n.length > MAX_FILENAME) := by
      push_neg
      exact ⟨hlen1, by omega⟩
    rw [fs_delete, if_neg (by simp [hm]), if_neg hname, hfind]

theorem fs_delete_error_codes_witness :
    (fs_delete { fs_format_state with mounted := false } [97]).1 = -2 ∧
    (fs_delete fs_format_state [97]).1 = -1 :=
  ⟨(fs_delete_error_codes { fs_format_state with mounted := false } [97]).1 (Or.inl rfl),
   (fs_delete_error_codes fs_format_state [97]).2 rfl (by decide) (by decide) (by decide)⟩

/-- Claim C3 counterexample: a name of length `MAX_FILENAME` (28) is strictly
longer than `MAX_FILENAME - 1` bytes, yet `fs_create` accepts it on a freshly
formatted mounted volume (it returns 0, not the claimed `-3`): the length
check in `fs_create` rejects only names longer than `MAX_FILENAME`. -/
theorem fs_create_overlong_name_counterexample :
    (List.replicate MAX_FILENAME 97).length > MAX_FILENAME - 1 ∧
    (fs_create fs_format_state (List.replicate MAX_FILENAME 97)).1 = 0 := by
  constructor
  · decide
  · decide

/-- Claim C3 (amended): `fs_create` rejects with `-3` every name strictly
longer than `MAX_FILENAME` bytes, and accepts a name of length exactly
`MAX_FILENAME - 1` when it is not present and a free inode slot exists. -/
theorem fs_create_name_length (s : FSState) (n : List Nat) (hm : s.mounted = true) :
    (n.length > MAX_FILENAME → (fs_create s n).1 = -3)
    ∧ (n.length = MAX_FILENAME - 1 → find_inode_by_name s n = none →
        (find_free_inode s).isSome = true → (fs_create s n).1 = 0) := by
  constructor
  · intro hlen
    rw [fs_create, if_neg (by simp [hm]), if_pos (Or.inr hlen)]
  · intro hlen hfind hfree
    obtain ⟨i, hi⟩ := Option.isSome_iff_exists.1 hfree
    have hname : ¬(n.length = 0 ∨ n.length > MAX_FILENAME) := by
      push_neg
      constructor
      · simp only [MAX_FILENAME] at hlen ⊢
        omega
      · simp only [MAX_FILENAME] at hlen ⊢
        omega
    rw [fs_create, if_neg (by simp [hm]), if_neg hname, if_neg (by simp [hfind]), hi]

theorem fs_create_name_length_witness :
    (fs_create fs_format_state (List.replicate 29 97)).1 = -3 ∧
    (fs_create fs_format_state (List.replicate 27 97)).1 = 0 :=
  ⟨(fs_create_name_length fs_format_state (List.replicate 29 97) rfl).1 (by decide),
   (fs_create_name_length fs_format_state (List.replicate 27 97) rfl).2 (by decide)
     (by decide) (by decide)⟩

theorem fs_write_early_error_state (s : FSState) (n d : List Nat) (size : Int) :
    (validate_write_operation_parameters s n size ≠ 0 →
      fs_write s n d size = (validate_write_operation_parameters s n size, s))
    ∧ (validate_write_operation_parameters s n size = 0 →
        find_inode_by_name s n = none → fs_write s n d size = (-1, s))
    ∧ (∀ i, validate_write_operation_parameters s n size = 0 →
        find_inode_by_name s n = some i →
        check_available_space_for_write_operation s
          ((size.toNat + BLOCK_SIZE - 1) / BLOCK_SIZE) (s.inodes i).size < 0 →
        fs_write s n d size = (check_available_space_for_write_operation s
          ((size.toNat + BLOCK_SIZE - 1) / BLOCK_SIZE) (s.inodes i).size, s)) := by
  refine ⟨fun hv => ?_, fun hv hfind => ?_, fun i hv hfind hchk => ?_⟩
  · rw [fs_write, if_pos hv]
  · rw [fs_write, if_neg (by simp [hv]), hfind]
  · rw [fs_write, if_neg (by simp [hv]), hfind]
    simp only [if_pos hchk]

/-- Claim C10: whenever `fs_write` fails in parameter validation, in the name
lookup, or in the free-space check, it returns that error code with the
filesystem state unchanged — no block is freed or allocated. -/
theorem fs_write_early_error_preserves_state (s : FSState) (n d : List Nat) (size : Int) :
    (validate_write_operation_parameters s n size ≠ 0 →
      fs_write s n d size = (validate_write_operation_parameters s n size, s))
    ∧ (validate_write_operation_parameters s n size = 0 →
        find_inode_by_name s n = none → fs_write s n d size = (-1, s))
    ∧ (∀ i, validate_write_operation_parameters s n size = 0 →
        find_inode_by_name s n = some i →
        check_available_space_for_write_operation s
          ((size.toNat + BLOCK_SIZE - 1) / BLOCK_SIZE) (s.inodes i).size < 0 →
        fs_write s n d size = (check_available_space_for_write_operation s
          ((size.toNat + BLOCK_SIZE - 1) / BLOCK_SIZE) (s.inodes i).size, s)) :=
  fs_write_early_error_state s n d size

theorem fs_write_early_error_preserves_state_witness :
    fs_write fs_format_state [97] [1] 1 = (-1, fs_format_state) :=
  (fs_write_early_error_preserves_state fs_format_state [97] [1] 1).2.1 (by decide) (by decide)

theorem fs_create_success_state (s : FSState) (n : List Nat) (i : Nat)
    (hm : s.mounted = true) (hlen1 : n.length ≠ 0) (hlen2 : n.length ≤ MAX_FILENAME)
    (hfind : find_inode_by_name s n = none) (hfree : find_free_inode s = some i) :
    fs_create s n = (0,
      { s with
          inodes := Function.update s.inodes i
            { used := true, name := n.take (MAX_FILENAME - 1), size := 0, blk := fun _ => 0 }
          free_inodes := s.free_inodes - 1 }) := by
  have hname : ¬(n.length = 0 ∨ n.length > MAX_FILENAME) := by
    push_neg
    exact ⟨hlen1, by omega⟩
  rw [fs_create, if_neg (by simp [hm]), if_neg hname, if_neg (by simp [hfind]), hfree]

theorem cstr_take (n : List Nat) (hcs : CStr n) (k : Nat) : CStr (n.take k) :=
  fun b hb => hcs b (List.mem_of_mem_take hb)

theorem compare_strings_take_maxlen_ne_zero (n : List Nat)
    (hlen : n.length = MAX_FILENAME) (hcs : CStr n) :
    compare_strings (n.take (MAX_FILENAME - 1)) n ≠ 0 := by
  intro h
  have := compare_strings_eq_zero _ _ (cstr_take n hcs _) hcs h
  have hlen2 : (n.take (MAX_FILENAME - 1)).length = MAX_FILENAME - 1 := by
    rw [List.length_take]
    omega
  rw [this] at hlen2
  simp only [MAX_FILENAME] at hlen hlen2
  omega

theorem cstr_replicate (k c : Nat) (hc : c ≠ 0) : CStr (List.replicate k c) := by
  intro b hb
  rw [List.eq_of_mem_replicate hb]
  exact hc

/-- Claim C9: on a mounted filesystem with a free inode slot, `fs_create`
with a (NUL-free) name of length exactly `MAX_FILENAME` succeeds but stores
only the first `MAX_FILENAME - 1` bytes of the name; a subsequent `fs_read`,
`fs_write` or `fs_delete` given the original full-length name returns `-1`
("not found"), because the stored truncated name never compares equal to the
full query. -/
theorem fs_create_truncates_overlong_name (s : FSState) (n : List Nat) (i : Nat)
    (hm : s.mounted = true) (hlen : n.length = MAX_FILENAME) (hcs : CStr n)
    (hfind : find_inode_by_name s n = none) (hfree : find_free_inode s = some i) :
    (fs_create s n).1 = 0 ∧
    ((fs_create s n).2.inodes i).name = n.take (MAX_FILENAME - 1) ∧
    (∀ size : Int, 0 < size → (fs_read (fs_create s n).2 n size).1 = -1) ∧
    (∀ d (size : Int), 0 < size → size ≤ ((MAX_DIRECT_BLOCKS * BLOCK_SIZE : Nat) : Int) →
      (fs_write (fs_create s n).2 n d size).1 = -1) ∧
    (fs_delete (fs_create s n).2 n).1 = -1 := by
  have hlen1 : n.length ≠ 0 := by
    simp only [MAX_FILENAME] at hlen
    omega
  have hstate := fs_create_success_state s n i hm hlen1 (le_of_eq hlen) hfind hfree
  have hs2 : (fs_create s n).2 =
      { s with
          inodes := Function.update s.inodes i
            ⟨true, n.take (MAX_FILENAME - 1), 0, fun _ => 0⟩
          free_inodes := s.free_inodes - 1 } := by
    rw [hstate]
  have hs2m : (fs_create s n).2.mounted = true := by rw [hs2]; exact hm
  have hs2i : (fs_create s n).2.inodes i = ⟨true, n.take (MAX_FILENAME - 1), 0, fun _ => 0⟩ := by
    rw [hs2]
    exact Function.update_same _ _ _
  have hs2find : find_inode_by_name (fs_create s n).2 n = none := by
    rw [find_inode_by_name_none_iff _ n hs2m]
    intro j hj
    by_cases hji : j = i
    · subst hji
      rw [hs2i]
      simp [compare_strings_take_maxlen_ne_zero n hlen hcs]
    · have heq : (fs_create s n).2.inodes j = s.inodes j := by
        rw [hs2]
        exact Function.update_noteq hji _ _
      rw [heq]
      exact (find_inode_by_name_none_iff s n hm).1 hfind j hj
  have hnamebound : ¬(n.length = 0 ∨ n.length > MAX_FILENAME) := by
    push_neg
    exact ⟨hlen1, by omega⟩
  refine ⟨by rw [hstate], ?_, ?_, ?_, ?_⟩
  · rw [hs2i]
  · intro size hsz
    rw [fs_read, if_neg (by simp [hs2m]),
      if_neg (by push_neg; exact ⟨hlen1, by omega, by omega⟩), hs2find]
  · intro d size hsz1 hsz2
    have hv : validate_write_operation_parameters (fs_create s n).2 n size = 0 := by
      rw [validate_write_operation_parameters, if_neg (by simp [hs2m]),
        if_neg (by push_neg; exact ⟨hlen1, by omega, by omega⟩), if_neg (by omega)]
    rw [fs_write, if_neg (by simp [hv]), hs2find]
  · rw [fs_delete, if_neg (by simp [hs2m]), if_neg hnamebound, hs2find]

theorem fs_create_truncates_overlong_name_witness :
    (fs_create fs_format_state (List.replicate 28 97)).1 = 0 ∧
    (fs_delete (fs_create fs_format_state (List.replicate 28 97)).2
      (List.replicate 28 97)).1 = -1 := by
  have h := fs_create_truncates_overlong_name fs_format_state (List.replicate 28 97) 0 rfl
    (by decide) (cstr_replicate 28 97 (by decide)) (by decide) (by decide)
  exact ⟨h.1, h.2.2.2.2⟩

theorem fs_read_loop_done (data : Nat → Nat → Nat) (eff : Nat) :
    ∀ (bl : List Nat) (t : Nat), eff ≤ t →
      (∀ b ∈ bl, 10 ≤ b ∧ b < MAX_BLOCKS) →
      fs_read_blocks_loop data eff bl t = some [] := by
  intro bl
  induction bl with
  | nil => intro t _ _; rfl
  | cons b rest ih =>
    intro t ht hv
    have hb := hv b (List.mem_cons_self b rest)
    rw [fs_read_blocks_loop, if_neg (by omega)]
    have hbtw : min BLOCK_SIZE (eff - t) = 0 := by
      simp only [BLOCK_SIZE]
      omega
    simp only [hbtw]
    rw [ih (t + 0) (by omega) (fun c hc => hv c (List.mem_cons_of_mem _ hc))]
    simp

theorem fs_read_loop_main (data : Nat → Nat → Nat) (blk : Nat → Nat) (eff : Nat) :
    ∀ (k j : Nat), j * BLOCK_SIZE ≤ eff →
      (∀ m, m < k → 10 ≤ blk (j + m) ∧ blk (j + m) < MAX_BLOCKS) →
      fs_read_blocks_loop data eff ((List.range' j k).map blk) (j * BLOCK_SIZE) =
        some ((List.range' (j * BLOCK_SIZE)
            (min eff ((j + k) * BLOCK_SIZE) - j * BLOCK_SIZE)).map
          (fun o => data (blk (o / BLOCK_SIZE)) (o % BLOCK_SIZE))) := by
  intro k
  induction k with
  | zero =>
    intro j hj _
    have : min eff ((j + 0) * BLOCK_SIZE) - j * BLOCK_SIZE = 0 := by
      simp only [BLOCK_SIZE] at hj ⊢
      omega
    rw [this]
    simp [fs_read_blocks_loop]
  | succ k ih =>
    intro j hj hv
    rw [List.range'_succ]
    have hbj := hv 0 (by omega)
    simp only [Nat.add_zero] at hbj
    rw [List.map_cons, fs_read_blocks_loop, if_neg (by omega)]
    by_cases hcase : (j + 1) * BLOCK_SIZE ≤ eff
    · have hbtw : min BLOCK_SIZE (eff - j * BLOCK_SIZE) = BLOCK_SIZE := by
        simp only [BLOCK_SIZE] at hcase ⊢
        omega
      simp only [hbtw]
      have htot : j * BLOCK_SIZE + BLOCK_SIZE = (j + 1) * BLOCK_SIZE := by ring
      rw [htot, ih (j + 1) hcase (fun m hm => by
        have h5 := hv (m + 1) (by omega)
        have h6 : j + (m + 1) = j + 1 + m := by omega
        rw [h6] at h5
        exact h5)]
      simp only [Option.some.injEq]
      have hchunk : (List.range BLOCK_SIZE).map (fun off => data (blk j) off) =
          (List.range' (j * BLOCK_SIZE) BLOCK_SIZE).map
            (fun o => data (blk (o / BLOCK_SIZE)) (o % BLOCK_SIZE)) := by
        rw [List.range'_eq_map_range, List.map_map]
        apply List.map_congr_left
        intro off hoff
        rw [List.mem_range] at hoff
        have hdiv : (j * BLOCK_SIZE + off) / BLOCK_SIZE = j := by
          simp only [BLOCK_SIZE] at hoff ⊢
          omega
        have hmod : (j * BLOCK_SIZE + off) % BLOCK_SIZE = off := by
          simp only [BLOCK_SIZE] at hoff ⊢
          omega
        simp [Function.comp, hdiv, hmod]
      rw [hchunk, ← List.map_append]
      congr 1
      have hC : min eff ((j + (k + 1)) * BLOCK_SIZE) - j * BLOCK_SIZE =
          BLOCK_SIZE + (min eff ((j + 1 + k) * BLOCK_SIZE) - (j + 1) * BLOCK_SIZE) := by
        have h3 : (j + 1) * 4096 ≤ (j + (k + 1)) * 4096 := by
          apply Nat.mul_le_mul_right
          omega
        simp only [BLOCK_SIZE] at hcase h3 ⊢
        omega
      rw [hC]
      have h1 : (j + 1) * BLOCK_SIZE = j * BLOCK_SIZE + 1 * BLOCK_SIZE := by ring
      rw [h1, Nat.add_comm BLOCK_SIZE _]
      exact List.range'_append _ _ _ _
    · have hbtw : min BLOCK_SIZE (eff - j * BLOCK_SIZE) = eff - j * BLOCK_SIZE := by
        simp only [BLOCK_SIZE] at hcase ⊢
        omega
      simp only [hbtw]
      have htot : j * BLOCK_SIZE + (eff - j * BLOCK_SIZE) = eff := by
        omega
      rw [htot, fs_read_loop_done data eff _ eff (le_refl _) (fun c hc => by
        rw [List.mem_map] at hc
        obtain ⟨m, hm, rfl⟩ := hc
        rw [mem_range'_iff] at hm
        have h5 := hv (m - j) (by omega)
        have h6 : j + (m - j) = m := by omega
        rw [h6] at h5
        exact h5)]
      simp only [List.append_nil, Option.some.injEq]
      have hcount : min eff ((j + (k + 1)) * BLOCK_SIZE) - j * BLOCK_SIZE =
          eff - j * BLOCK_SIZE := by
        have h3 : (j + 1) * BLOCK_SIZE ≤ (j + (k + 1)) * BLOCK_SIZE := by
          apply Nat.mul_le_mul_right
          omega
        simp only [BLOCK_SIZE] at hcase h3 ⊢
        omega
      rw [hcount, List.range'_eq_map_range, List.map_map]
      apply List.map_congr_left
      intro off hoff
      rw [List.mem_range] at hoff
      have hoffb : off < BLOCK_SIZE := by
        simp only [BLOCK_SIZE] at hcase hoff ⊢
        omega
      have hdiv : (j * BLOCK_SIZE + off) / BLOCK_SIZE = j := by
        simp only [BLOCK_SIZE] at hoffb ⊢
        omega
      have hmod : (j * BLOCK_SIZE + off) % BLOCK_SIZE = off := by
        simp only [BLOCK_SIZE] at hoffb ⊢
        omega
      simp [Function.comp, hdiv, hmod]

theorem fs_read_success (s : FSState) (n : List Nat) (i : Nat) (size : Int)
    (hm : s.mounted = true) (hlen1 : n.length ≠ 0) (hlen2 : n.length ≤ MAX_FILENAME)
    (hsz : 0 < size) (hfind : find_inode_by_name s n = some i)
    (hblocks : ∀ j, j * BLOCK_SIZE < (s.inodes i).size →
      10 ≤ (s.inodes i).blk j ∧ (s.inodes i).blk j < MAX_BLOCKS) :
    fs_read s n size = (((min size.toNat (s.inodes i).size : Nat) : Int),
      (List.range (min size.toNat (s.inodes i).size)).map
        (fun o => s.data ((s.inodes i).blk (o / BLOCK_SIZE)) (o % BLOCK_SIZE))) := by
  rw [fs_read, if_neg (by simp [hm]),
    if_neg (by push_neg; exact ⟨hlen1, by omega, by omega⟩), hfind]
  simp only []
  by_cases h0 : min size.toNat (s.inodes i).size = 0
  · rw [if_pos h0, h0]
    simp
  · rw [if_neg h0]
    have heffle : min size.toNat (s.inodes i).size ≤ (s.inodes i).size :=
      Nat.min_le_right _ _
    have hbtr : ∀ m, m < (min size.toNat (s.inodes i).size + BLOCK_SIZE - 1) / BLOCK_SIZE →
        m * BLOCK_SIZE < min size.toNat (s.inodes i).size := by
      intro m hmlt
      simp only [BLOCK_SIZE] at hmlt ⊢
      omega
    have hloop := fs_read_loop_main s.data (s.inodes i).blk
      (min size.toNat (s.inodes i).size)
      ((min size.toNat (s.inodes i).size + BLOCK_SIZE - 1) / BLOCK_SIZE) 0
      (by simp)
      (fun m hmlt => by
        have h1 := hbtr m hmlt
        have h2 : m * BLOCK_SIZE < (s.inodes i).size := by omega
        have h3 := hblocks m h2
        simpa using h3)
    rw [Nat.zero_mul, Nat.zero_add] at hloop
    have hminmul : min (min size.toNat (s.inodes i).size)
        (((min size.toNat (s.inodes i).size + BLOCK_SIZE - 1) / BLOCK_SIZE) * BLOCK_SIZE)
        = min size.toNat (s.inodes i).size := by
      simp only [BLOCK_SIZE]
      omega
    rw [hminmul, Nat.sub_zero, ← List.range_eq_range'] at hloop
    rw [← List.range_eq_range'] at hloop
    rw [hloop]
    simp

/-- Claim C5: for a mounted filesystem, an existing file whose block pointers
are in range and a positive requested size, `fs_read` returns
`min(size, inode.size)` and copies exactly that many leading bytes of the
file's content; in particular when that minimum is zero it returns 0
immediately with no bytes copied. -/
theorem fs_read_returns_min_of_request_and_size (s : FSState) (n : List Nat) (i : Nat)
    (size : Int) (hm : s.mounted = true) (hlen1 : n.length ≠ 0)
    (hlen2 : n.length ≤ MAX_FILENAME) (hsz : 0 < size)
    (hfind : find_inode_by_name s n = some i)
    (hblocks : ∀ j, j * BLOCK_SIZE < (s.inodes i).size →
      10 ≤ (s.inodes i).blk j ∧ (s.inodes i).blk j < MAX_BLOCKS) :
    fs_read s n size = (((min size.toNat (s.inodes i).size : Nat) : Int),
      (List.range (min size.toNat (s.inodes i).size)).map
        (fun o => s.data ((s.inodes i).blk (o / BLOCK_SIZE)) (o % BLOCK_SIZE))) :=
  fs_read_success s n i size hm hlen1 hlen2 hsz hfind hblocks

theorem fs_read_returns_min_witness :
    fs_read (fs_write (fs_create fs_format_state [97]).2 [97] [1, 2, 3] 3).2 [97] 2 =
      ((2 : Int), [1, 2]) := by
  have h := fs_read_returns_min_of_request_and_size
    (fs_write (fs_create fs_format_state [97]).2 [97] [1, 2, 3] 3).2
    [97] 0 2 (by decide) (by decide) (by decide) (by decide) (by decide)
    (fun j hj => by
      have hsz : ((fs_write (fs_create fs_format_state [97]).2 [97] [1, 2, 3] 3).2.inodes 0).size
          = 3 := by decide
      rw [hsz] at hj
      have hj0 : j = 0 := by
        simp only [BLOCK_SIZE] at hj
        omega
      subst hj0
      decide)
  rw [h]
  decide

theorem mark_block_as_used_parts (s : FSState) (b : Nat) :
    (mark_block_as_used s b).mounted = s.mounted ∧
    (mark_block_as_used s b).free_blocks = s.free_blocks ∧
    (mark_block_as_used s b).free_inodes = s.free_inodes ∧
    (mark_block_as_used s b).inodes = s.inodes ∧
    (mark_block_as_used s b).data = s.data := by
  rw [mark_block_as_used]
  by_cases h : validate_block_number_and_filesystem s b ≠ 0
  · rw [if_pos h]
    exact ⟨rfl, rfl, rfl, rfl, rfl⟩
  · rw [if_neg h]
    exact ⟨rfl, rfl, rfl, rfl, rfl⟩

theorem mark_block_as_free_parts (s : FSState) (b : Nat) :
    (mark_block_as_free s b).mounted = s.mounted ∧
    (mark_block_as_free s b).free_blocks = s.free_blocks ∧
    (mark_block_as_free s b).free_inodes = s.free_inodes ∧
    (mark_block_as_free s b).inodes = s.inodes ∧
    (mark_block_as_free s b).data = s.data := by
  rw [mark_block_as_free]
  by_cases h : validate_block_number_and_filesystem s b ≠ 0
  · rw [if_pos h]
    exact ⟨rfl, rfl, rfl, rfl, rfl⟩
  · rw [if_neg h]
    exact ⟨rfl, rfl, rfl, rfl, rfl⟩

theorem mark_block_as_used_bitmap (s : FSState) (b : Nat) (hm : s.mounted = true)
    (hb : b < MAX_BLOCKS) :
    (mark_block_as_used s b).bitmap = Function.update s.bitmap b true := by
  rw [mark_block_as_used, if_neg]
  simp [validate_block_number_and_filesystem, hm]
  omega

theorem mark_block_as_free_bitmap (s : FSState) (b : Nat) (hm : s.mounted = true)
    (hb : b < MAX_BLOCKS) :
    (mark_block_as_free s b).bitmap = Function.update s.bitmap b false := by
  rw [mark_block_as_free, if_neg]
  simp [validate_block_number_and_filesystem, hm]
  omega

theorem free_file_blocks_step_parts (p : FSState × inode) (it : Nat) :
    ((free_file_blocks_step p it).1.mounted = p.1.mounted ∧
     (free_file_blocks_step p it).1.inodes = p.1.inodes ∧
     (free_file_blocks_step p it).1.data = p.1.data ∧
     (free_file_blocks_step p it).1.free_inodes = p.1.free_inodes) ∧
    ((free_file_blocks_step p it).2.used = p.2.used ∧
     (free_file_blocks_step p it).2.name = p.2.name ∧
     (free_file_blocks_step p it).2.size = p.2.size) := by
  rw [free_file_blocks_step]
  by_cases h : p.2.blk it ≠ 0 ∧ p.2.blk it < MAX_BLOCKS
  · rw [if_pos h]
    have hp := mark_block_as_free_parts p.1 (p.2.blk it)
    exact ⟨⟨hp.1, hp.2.2.2.1, hp.2.2.2.2, hp.2.2.1⟩, rfl, rfl, rfl⟩
  · rw [if_neg h]
    exact ⟨⟨rfl, rfl, rfl, rfl⟩, rfl, rfl, rfl⟩

theorem free_fold_parts (l : List Nat) :
    ∀ p : FSState × inode,
      ((l.foldl free_file_blocks_step p).1.mounted = p.1.mounted ∧
       (l.foldl free_file_blocks_step p).1.inodes = p.1.inodes ∧
       (l.foldl free_file_blocks_step p).1.data = p.1.data ∧
       (l.foldl free_file_blocks_step p).1.free_inodes = p.1.free_inodes) ∧
      ((l.foldl free_file_blocks_step p).2.used = p.2.used ∧
       (l.foldl free_file_blocks_step p).2.name = p.2.name ∧
       (l.foldl free_file_blocks_step p).2.size = p.2.size) := by
  induction l with
  | nil => intro p; exact ⟨⟨rfl, rfl, rfl, rfl⟩, rfl, rfl, rfl⟩
  | cons a t ih =>
    intro p
    have h1 := free_file_blocks_step_parts p a
    have h2 := ih (free_file_blocks_step p a)
    simp only [List.foldl_cons]
    refine ⟨⟨?_, ?_, ?_, ?_⟩, ?_, ?_, ?_⟩
    · rw [h2.1.1, h1.1.1]
    · rw [h2.1.2.1, h1.1.2.1]
    · rw [h2.1.2.2.1, h1.1.2.2.1]
    · rw [h2.1.2.2.2, h1.1.2.2.2]
    · rw [h2.2.1, h1.2.1]
    · rw [h2.2.2.1, h1.2.2.1]
    · rw [h2.2.2.2, h1.2.2.2]

theorem free_file_existing_blocks_parts (s : FSState) (ino : inode) :
    ((free_file_existing_blocks s ino).1.mounted = s.mounted ∧
     (free_file_existing_blocks s ino).1.inodes = s.inodes ∧
     (free_file_existing_blocks s ino).1.data = s.data ∧
     (free_file_existing_blocks s ino).1.free_inodes = s.free_inodes) ∧
    ((free_file_existing_blocks s ino).2.used = ino.used ∧
     (free_file_existing_blocks s ino).2.name = ino.name ∧
     (free_file_existing_blocks s ino).2.size = ino.size) := by
  rw [free_file_existing_blocks]
  exact free_fold_parts _ (s, ino)

theorem allocate_blocks_go_codes :
    ∀ (k j : Nat) (s : FSState) (nd : inode),
      (allocate_blocks_go k j s nd).1 = 0 ∨ (allocate_blocks_go k j s nd).1 = -2 := by
  intro k
  induction k with
  | zero => intro j s nd; exact Or.inl rfl
  | succ k ih =>
    intro j s nd
    rw [allocate_blocks_go]
    by_cases h : find_free_block s < 0
    · rw [if_pos h]
      exact Or.inr rfl
    · rw [if_neg h]
      exact ih _ _ _

theorem find_free_block_cases (s : FSState) (hm : s.mounted = true)
    (h : ¬ find_free_block s < 0) :
    ∃ b : Nat, find_free_block s = (b : Int) ∧ METADATA_BLOCKS ≤ b ∧ b < MAX_BLOCKS ∧
      s.bitmap b = false ∧ (find_free_block s).toNat = b := by
  have hval : validate_block_number_and_filesystem s 0 = 0 := by
    simp [validate_block_number_and_filesystem, hm, MAX_BLOCKS]
  rw [find_free_block, if_neg (by simp [hval])] at h ⊢
  cases hfb : (List.range' METADATA_BLOCKS (MAX_BLOCKS - METADATA_BLOCKS)).find?
      (fun block_index => !(s.bitmap block_index)) with
  | none => rw [hfb] at h; norm_num at h
  | some b =>
    have hprops := (range'_find?_eq_some _ _ _ _).1 hfb
    refine ⟨b, rfl, hprops.1, ?_, by simpa using hprops.2.2.1, by simp⟩
    have := hprops.2.1
    simp only [MAX_BLOCKS, METADATA_BLOCKS] at this ⊢
    omega

theorem update_bitmap_mono (bm : Nat → Bool) (b c : Nat) (h : bm c = true) :
    Function.update bm b true c = true := by
  by_cases hcb : c = b
  · subst hcb; rw [Function.update_same]
  · rw [Function.update_noteq hcb]; exact h

theorem popcount_after_mark_used (s : FSState) (b : Nat) (hm : s.mounted = true)
    (hb1 : METADATA_BLOCKS ≤ b) (hb2 : b < MAX_BLOCKS) (hclear : s.bitmap b = false)
    (v : Int) :
    popcountData { mark_block_as_used s b with free_blocks := v } = popcountData s + 1 := by
  simp only [popcountData, mark_block_as_used_bitmap s b hm hb2]
  apply countP_update_of_false b s.bitmap hclear _ (List.nodup_range' _ _)
  rw [mem_range'_iff]
  constructor
  · exact hb1
  · simp only [MAX_BLOCKS, METADATA_BLOCKS] at hb2 ⊢
    omega

theorem allocate_blocks_go_spec :
    ∀ (k j : Nat) (s : FSState) (nd : inode) (s2 : FSState) (nd2 : inode),
      s.mounted = true →
      allocate_blocks_go k j s nd = (0, s2, nd2) →
      s2.mounted = s.mounted ∧ s2.inodes = s.inodes ∧ s2.data = s.data ∧
      s2.free_inodes = s.free_inodes ∧
      s2.free_blocks = s.free_blocks - (k : Int) ∧
      popcountData s2 = popcountData s + k ∧
      nd2.used = nd.used ∧ nd2.name = nd.name ∧ nd2.size = nd.size ∧
      (∀ m, m < j ∨ j + k ≤ m → nd2.blk m = nd.blk m) ∧
      (∀ m, j ≤ m → m < j + k →
        10 ≤ nd2.blk m ∧ nd2.blk m < MAX_BLOCKS ∧ s.bitmap (nd2.blk m) = false ∧
        s2.bitmap (nd2.blk m) = true) ∧
      (∀ m1 m2, j ≤ m1 → m1 < m2 → m2 < j + k → nd2.blk m1 ≠ nd2.blk m2) ∧
      (∀ b, s.bitmap b = true → s2.bitmap b = true) := by
  intro k
  induction k with
  | zero =>
    intro j s nd s2 nd2 hm h
    rw [allocate_blocks_go] at h
    simp only [Prod.mk.injEq] at h
    obtain ⟨rfl, rfl⟩ := h.2
    refine ⟨rfl, rfl, rfl, rfl, by simp, by simp, rfl, rfl, rfl,
      fun m _ => rfl, fun m hm1 hm2 => absurd hm1 (by omega),
      fun m1 m2 h1 h2 h3 => absurd h2 (by omega), fun b hb => hb⟩
  | succ k ih =>
    intro j s nd s2 nd2 hm h
    rw [allocate_blocks_go] at h
    by_cases hffb : find_free_block s < 0
    · rw [if_pos hffb] at h
      exact absurd (congrArg Prod.fst h) (by norm_num)
    · rw [if_neg hffb] at h
      obtain ⟨b, hfbeq, hb1, hb2, hbclear, htn⟩ := find_free_block_cases s hm hffb
      rw [htn] at h
      have hmarkparts := mark_block_as_used_parts s b
      have hmarkbm := mark_block_as_used_bitmap s b hm hb2
      have hstm : ({ mark_block_as_used s b with
          free_blocks := (mark_block_as_used s b).free_blocks - 1 } : FSState).mounted
          = true := by
        show (mark_block_as_used s b).mounted = true
        rw [hmarkparts.1, hm]
      have hIH := ih (j + 1)
        { mark_block_as_used s b with free_blocks := (mark_block_as_used s b).free_blocks - 1 }
        { nd with blk := Function.update nd.blk j b } s2 nd2 hstm h
      obtain ⟨ih_m, ih_i, ih_d, ih_fi, ih_fb, ih_pc, ih_u, ih_n, ih_sz, ih_out, ih_in,
        ih_dist, ih_mono⟩ := hIH
      have hstbm : ({ mark_block_as_used s b with
          free_blocks := (mark_block_as_used s b).free_blocks - 1 } : FSState).bitmap
          = Function.update s.bitmap b true := hmarkbm
      have hbj : nd2.blk j = b := by
        have := ih_out j (Or.inl (by omega))
        rw [this]
        show Function.update nd.blk j b j = b
        rw [Function.update_same]
      refine ⟨?_, ?_, ?_, ?_, ?_, ?_, ?_, ?_, ?_, ?_, ?_, ?_, ?_⟩
      · rw [ih_m]; show (mark_block_as_used s b).mounted = s.mounted; rw [hmarkparts.1]
      · rw [ih_i]; exact hmarkparts.2.2.2.1
      · rw [ih_d]; exact hmarkparts.2.2.2.2
      · rw [ih_fi]; exact hmarkparts.2.2.1
      · rw [ih_fb]
        show (mark_block_as_used s b).free_blocks - 1 - (k : Int) = _
        rw [hmarkparts.2.1]
        push_cast
        ring
      · rw [ih_pc, popcount_after_mark_used s b hm hb1 hb2 hbclear]
        omega
      · rw [ih_u]
      · rw [ih_n]
      · rw [ih_sz]
      · intro m hmr
        have hmj : m ≠ j := by omega
        have : nd2.blk m = Function.update nd.blk j b m := by
          apply ih_out
          omega
        rw [this, Function.update_noteq hmj]
      · intro m hm1 hm2
        by_cases hmj : m = j
        · subst hmj
          rw [hbj]
          refine ⟨by simpa [METADATA_BLOCKS] using hb1, hb2, hbclear, ?_⟩
          apply ih_mono
          rw [hstbm, Function.update_same]
        · have hmge : j + 1 ≤ m := by omega
          have hin := ih_in m hmge (by omega)
          have hnotb : nd2.blk m ≠ b := by
            intro heq
            have := hin.2.2.1
            rw [hstbm, heq, Function.update_same] at this
            cases this
          refine ⟨hin.1, hin.2.1, ?_, hin.2.2.2⟩
          have := hin.2.2.1
          rw [hstbm, Function.update_noteq hnotb] at this
          exact this
      · intro m1 m2 h1 h2 h3
        by_cases hm1j : m1 = j
        · subst hm1j
          rw [hbj]
          have hin := ih_in m2 (by omega) (by omega)
          intro heq
          have := hin.2.2.1
          rw [hstbm, ← heq, Function.update_same] at this
          cases this
        · exact ih_dist m1 m2 (by omega) h2 (by omega)
      · intro b' hb'
        apply ih_mono
        rw [hstbm]
        exact update_bitmap_mono s.bitmap b b' hb'

theorem popcountData_le (s : FSState) : popcountData s ≤ MAX_BLOCKS - METADATA_BLOCKS := by
  have h := List.countP_le_length (l := List.range' METADATA_BLOCKS (MAX_BLOCKS - METADATA_BLOCKS))
    (p := fun b => s.bitmap b)
  rw [List.length_range'] at h
  exact h

theorem exists_clear_of_popcount_lt (s : FSState)
    (h : popcountData s < MAX_BLOCKS - METADATA_BLOCKS) :
    ∃ b, METADATA_BLOCKS ≤ b ∧ b < MAX_BLOCKS ∧ s.bitmap b = false := by
  by_contra hcon
  push_neg at hcon
  have hall : ∀ b ∈ List.range' METADATA_BLOCKS (MAX_BLOCKS - METADATA_BLOCKS),
      (fun b => s.bitmap b) b = true := by
    intro b hb
    rw [mem_range'_iff] at hb
    have hb2 : b < MAX_BLOCKS := by
      simp only [MAX_BLOCKS, METADATA_BLOCKS] at hb ⊢
      omega
    have := hcon b hb.1 hb2
    simpa using this
  have : popcountData s = MAX_BLOCKS - METADATA_BLOCKS := by
    rw [popcountData, List.countP_eq_length.2 hall, List.length_range']
  omega

theorem allocate_blocks_go_enough :
    ∀ (k j : Nat) (s : FSState) (nd : inode),
      s.mounted = true →
      popcountData s + k ≤ MAX_BLOCKS - METADATA_BLOCKS →
      (allocate_blocks_go k j s nd).1 = 0 := by
  intro k
  induction k with
  | zero => intro j s nd _ _; rfl
  | succ k ih =>
    intro j s nd hm hcount
    rw [allocate_blocks_go]
    have hex : ∃ b, METADATA_BLOCKS ≤ b ∧ b < MAX_BLOCKS ∧ s.bitmap b = false :=
      exists_clear_of_popcount_lt s (by omega)
    obtain ⟨c, hc, hmin⟩ := exists_least_clear_block s hex
    have hsome := find_free_block_eq_some s hm c hc.1 hc.2.1 hc.2.2 hmin
    have hnneg : ¬ find_free_block s < 0 := by
      rw [hsome]
      omega
    rw [if_neg hnneg]
    obtain ⟨b, hfbeq, hb1, hb2, hbclear, htn⟩ := find_free_block_cases s hm hnneg
    rw [htn]
    apply ih
    · show (mark_block_as_used s b).mounted = true
      rw [(mark_block_as_used_parts s b).1, hm]
    · rw [popcount_after_mark_used s b hm hb1 hb2 hbclear]
      omega

theorem validate_write_eq_zero_iff (s : FSState) (n : List Nat) (size : Int) :
    validate_write_operation_parameters s n size = 0 ↔
      (s.mounted = true ∧ n.length ≠ 0 ∧ n.length ≤ MAX_FILENAME ∧ 0 < size ∧
        size ≤ ((MAX_DIRECT_BLOCKS * BLOCK_SIZE : Nat) : Int)) := by
  rw [validate_write_operation_parameters]
  by_cases hm : s.mounted
  · rw [if_neg (by simp [hm])]
    by_cases hname : n.length = 0 ∨ n.length > MAX_FILENAME ∨ size ≤ 0
    · rw [if_pos hname]
      constructor
      · intro h; norm_num at h
      · rintro ⟨-, h1, h2, h3, -⟩
        rcases hname with h | h | h
        · exact absurd h h1
        · omega
        · omega
    · rw [if_neg hname]
      push_neg at hname
      by_cases hbig : size > ((MAX_DIRECT_BLOCKS * BLOCK_SIZE : Nat) : Int)
      · rw [if_pos hbig]
        constructor
        · intro h; norm_num at h
        · rintro ⟨-, -, -, -, h⟩
          omega
      · rw [if_neg hbig]
        constructor
        · intro _
          exact ⟨by simpa using hm, hname.1, by omega, by omega, by omega⟩
        · intro _; rfl
  · rw [if_pos (by simpa using hm)]
    constructor
    · intro h; norm_num at h
    · rintro ⟨h, -⟩
      rw [h] at hm
      exact absurd rfl hm

theorem write_data_success (s : FSState) (ino : inode) (D : List Nat) (sz bn : Nat)
    (hsz : sz ≠ 0) (hbn : bn ≠ 0) :
    write_data_to_allocated_blocks s ino D sz bn =
      (0, { s with
              data := (List.range bn).foldl
                (fun d block_iterator => Function.update d (ino.blk block_iterator)
                  (fun off => if block_iterator * BLOCK_SIZE + off < sz ∧ off < BLOCK_SIZE
                    then D.getD (block_iterator * BLOCK_SIZE + off) 0 else 0))
                s.data }) := by
  rw [write_data_to_allocated_blocks, if_neg (by push_neg; exact ⟨hsz, hbn⟩)]

/-- Claim C1: for every mounted filesystem state, existing file name `n` and
byte sequence `D` with `1 ≤ |D| ≤ MAX_DIRECT_BLOCKS * BLOCK_SIZE`, if
`fs_write n D |D|` returns 0 then a following `fs_read n B k` with `k ≥ |D|`
returns `|D|` and fills the first `|D|` bytes of the buffer with exactly `D`,
regardless of the file's prior size or contents. -/
theorem fs_write_then_fs_read_roundtrip (s s2 : FSState) (n D : List Nat) (k : Int)
    (hD1 : 1 ≤ D.length) (hD2 : D.length ≤ MAX_DIRECT_BLOCKS * BLOCK_SIZE)
    (hw : fs_write s n D ((D.length : Nat) : Int) = (0, s2))
    (hk : ((D.length : Nat) : Int) ≤ k) :
    fs_read s2 n k = (((D.length : Nat) : Int), D) := by
  by_cases hv : validate_write_operation_parameters s n ((D.length : Nat) : Int) = 0
  swap
  · simp only [fs_write] at hw
    rw [if_pos hv] at hw
    exact absurd (congrArg Prod.fst hw) hv
  obtain ⟨hm, hn1, hn2, hpos, hbound⟩ := (validate_write_eq_zero_iff s n _).1 hv
  simp only [fs_write] at hw
  rw [if_neg (by simp [hv])] at hw
  cases hfind : find_inode_by_name s n with
  | none =>
    rw [hfind] at hw
    exact absurd (congrArg Prod.fst hw) (by norm_num)
  | some i =>
  rw [hfind] at hw
  simp only [Int.toNat_natCast] at hw
  set bn := (D.length + BLOCK_SIZE - 1) / BLOCK_SIZE with hbndef
  have hbn1 : 1 ≤ bn := by
    rw [hbndef]
    simp only [BLOCK_SIZE]
    omega
  by_cases hchk : check_available_space_for_write_operation s bn (s.inodes i).size < 0
  · rw [if_pos hchk, Prod.mk.injEq] at hw
    rw [hw.1] at hchk
    norm_num at hchk
  rw [if_neg hchk] at hw
  set F := free_file_existing_blocks s (s.inodes i) with hF
  set A := allocate_blocks_for_file F.1 F.2 bn with hA
  have hbne : bn ≠ 0 := by omega
  have hAgo : A = allocate_blocks_go bn 0 F.1 F.2 := by
    rw [hA, allocate_blocks_for_file, if_neg hbne]
  have hcode := allocate_blocks_go_codes bn 0 F.1 F.2
  rw [← hAgo] at hcode
  by_cases hc2 : A.1 = -2
  · rw [if_pos (by rw [hc2]; norm_num), Prod.mk.injEq] at hw
    rw [hc2] at hw
    norm_num at hw
  have hc0 : A.1 = 0 := by
    rcases hcode with h | h
    · exact h
    · exact absurd h hc2
  rw [if_neg (by rw [hc0]; norm_num)] at hw
  set W := write_data_to_allocated_blocks A.2.1 A.2.2 D D.length bn with hW
  have hWeq : W = (0, { A.2.1 with
      data := (List.range bn).foldl
        (fun d block_iterator => Function.update d (A.2.2.blk block_iterator)
          (fun off => if block_iterator * BLOCK_SIZE + off < D.length ∧ off < BLOCK_SIZE
            then D.getD (block_iterator * BLOCK_SIZE + off) 0 else 0))
        A.2.1.data }) := by
    rw [hW]
    exact write_data_success A.2.1 A.2.2 D D.length bn (by omega) hbne
  have hW1 : W.1 = 0 := by rw [hWeq]
  have hW2 : W.2 = { A.2.1 with
      data := (List.range bn).foldl
        (fun d block_iterator => Function.update d (A.2.2.blk block_iterator)
          (fun off => if block_iterator * BLOCK_SIZE + off < D.length ∧ off < BLOCK_SIZE
            then D.getD (block_iterator * BLOCK_SIZE + off) 0 else 0))
        A.2.1.data } := by rw [hWeq]
  rw [if_neg (by rw [hW1]; norm_num), Prod.mk.injEq] at hw
  have hs2 := hw.2.symm
  -- component facts for the freed-blocks stage
  have hffparts := free_file_existing_blocks_parts s (s.inodes i)
  rw [← hF] at hffparts
  have hF1m : F.1.mounted = true := by rw [hffparts.1.1, hm]
  -- allocation success specification
  have hAeq : allocate_blocks_go bn 0 F.1 F.2 = (0, A.2.1, A.2.2) := by
    rw [← hAgo, ← hc0]
  have hspec := allocate_blocks_go_spec bn 0 F.1 F.2 A.2.1 A.2.2 hF1m hAeq
  obtain ⟨sp_m, sp_i, sp_d, sp_fi, sp_fb, sp_pc, sp_u, sp_n, sp_sz, sp_out, sp_in,
    sp_dist, sp_mono⟩ := hspec
  -- fields of the final state
  have hs2inodes : s2.inodes = Function.update s.inodes i
      { A.2.2 with size := D.length } := by
    rw [hs2]
    show Function.update W.2.inodes i _ = _
    rw [hW2]
    show Function.update A.2.1.inodes i _ = _
    rw [sp_i, hffparts.1.2.1]
  have hs2data : s2.data = (List.range bn).foldl
      (fun d block_iterator => Function.update d (A.2.2.blk block_iterator)
        (fun off => if block_iterator * BLOCK_SIZE + off < D.length ∧ off < BLOCK_SIZE
          then D.getD (block_iterator * BLOCK_SIZE + off) 0 else 0))
      A.2.1.data := by
    rw [hs2]
    show W.2.data = _
    rw [hW2]
  have hs2m : s2.mounted = true := by
    rw [hs2]
    show W.2.mounted = true
    rw [hW2]
    show A.2.1.mounted = true
    rw [sp_m, hF1m]
  -- the inode at slot i in the final state
  have hs2ii : s2.inodes i = { A.2.2 with size := D.length } := by
    rw [hs2inodes, Function.update_same]
  have hiused : A.2.2.used = (s.inodes i).used := by
    rw [sp_u, hffparts.2.1]
  have hiname : A.2.2.name = (s.inodes i).name := by
    rw [sp_n, hffparts.2.2.1]
  -- lookup in the final state still finds slot i
  have hfindprops := (find_inode_by_name_some_iff s n hm i).1 hfind
  have hfind2 : find_inode_by_name s2 n = some i := by
    rw [find_inode_by_name_some_iff s2 n hs2m i]
    refine ⟨hfindprops.1, ?_, ?_⟩
    · rw [hs2ii]
      show ((⟨A.2.2.used, A.2.2.name, D.length, A.2.2.blk⟩ : inode).used &&
        (compare_strings (⟨A.2.2.used, A.2.2.name, D.length, A.2.2.blk⟩ : inode).name n == 0))
        = true
      show (A.2.2.used && (compare_strings A.2.2.name n == 0)) = true
      rw [hiused, hiname]
      exact hfindprops.2.1
    · intro j hj
      have hji : j ≠ i := by
        intro h
        subst h
        exact absurd hj (lt_irrefl j)
      have : s2.inodes j = s.inodes j := by
        rw [hs2inodes, Function.update_noteq hji]
      rw [this]
      exact hfindprops.2.2 j hj
  -- the block pointers of the final inode are in range
  have hjbn : ∀ j, j * BLOCK_SIZE < D.length → j < bn := by
    intro j hjlt
    rw [hbndef]
    simp only [BLOCK_SIZE] at hjlt ⊢
    omega
  have hblocks : ∀ j, j * BLOCK_SIZE < (s2.inodes i).size →
      10 ≤ (s2.inodes i).blk j ∧ (s2.inodes i).blk j < MAX_BLOCKS := by
    intro j hjlt
    rw [hs2ii] at hjlt
    have hjsz : j * BLOCK_SIZE < D.length := hjlt
    have hjbn2 := hjbn j hjsz
    have hin := sp_in j (Nat.zero_le j) (by omega)
    rw [hs2ii]
    exact ⟨hin.1, hin.2.1⟩
  have hread := fs_read_success s2 n i k hs2m hn1 hn2 (by omega) hfind2 hblocks
  rw [hread]
  have hsz2 : (s2.inodes i).size = D.length := by rw [hs2ii]
  have hmin : min k.toNat (s2.inodes i).size = D.length := by
    rw [hsz2]
    omega
  rw [hmin]
  refine Prod.ext rfl ?_
  show (List.range D.length).map _ = D
  have hmap : ∀ o ∈ List.range D.length,
      s2.data ((s2.inodes i).blk (o / BLOCK_SIZE)) (o % BLOCK_SIZE) = D.getD o 0 := by
    intro o ho
    rw [List.mem_range] at ho
    have hodiv : o / BLOCK_SIZE < bn := by
      apply hjbn
      simp only [BLOCK_SIZE]
      omega
    have hblkeq : (s2.inodes i).blk (o / BLOCK_SIZE) = A.2.2.blk (o / BLOCK_SIZE) := by
      rw [hs2ii]
    rw [hblkeq, hs2data]
    rw [foldl_update_eval A.2.2.blk _ bn A.2.1.data (o / BLOCK_SIZE) hodiv
      (fun m1 m2 h1 h2 => sp_dist m1 m2 (Nat.zero_le m1) h1 (by omega))]
    have harith : (o / BLOCK_SIZE) * BLOCK_SIZE + o % BLOCK_SIZE = o := by
      simp only [BLOCK_SIZE]
      omega
    rw [harith]
    rw [if_pos ⟨ho, Nat.mod_lt o (by simp only [BLOCK_SIZE]; omega)⟩]
  rw [List.map_congr_left hmap]
  have : D.length = D.length := rfl
  exact map_getD_range D

theorem fs_write_then_fs_read_roundtrip_witness :
    fs_read (fs_write (fs_create fs_format_state [97]).2 [97] [5, 6] 2).2 [97] 3 =
      ((2 : Int), [5, 6]) := by
  have hw : fs_write (fs_create fs_format_state [97]).2 [97] [5, 6]
      (([5, 6] : List Nat).length : Int) =
      (0, (fs_write (fs_create fs_format_state [97]).2 [97] [5, 6] 2).2) := by
    refine Prod.ext ?_ rfl
    decide
  exact fs_write_then_fs_read_roundtrip (fs_create fs_format_state [97]).2 _ [97] [5, 6] 3
    (by decide) (by decide) hw (by decide)

theorem popcount_after_mark_free (s : FSState) (b : Nat) (hm : s.mounted = true)
    (hb1 : METADATA_BLOCKS ≤ b) (hb2 : b < MAX_BLOCKS) (hset : s.bitmap b = true)
    (v : Int) :
    popcountData { mark_block_as_free s b with free_blocks := v } + 1 = popcountData s := by
  simp only [popcountData, mark_block_as_free_bitmap s b hm hb2]
  apply countP_update_of_true b s.bitmap hset _ (List.nodup_range' _ _)
  rw [mem_range'_iff]
  refine ⟨hb1, ?_⟩
  simp only [MAX_BLOCKS, METADATA_BLOCKS] at hb2 ⊢
  omega

theorem free_file_blocks_step_spec (p : FSState × inode) (it : Nat)
    (h1 : p.2.blk it ≠ 0) (h2 : p.2.blk it < MAX_BLOCKS) :
    (free_file_blocks_step p it).1.free_blocks
        = (mark_block_as_free p.1 (p.2.blk it)).free_blocks + 1 ∧
    (free_file_blocks_step p it).1.bitmap = (mark_block_as_free p.1 (p.2.blk it)).bitmap ∧
    (free_file_blocks_step p it).1.mounted = p.1.mounted ∧
    (free_file_blocks_step p it).2.blk = Function.update p.2.blk it 0 ∧
    popcountData (free_file_blocks_step p it).1
        = (List.range' METADATA_BLOCKS (MAX_BLOCKS - METADATA_BLOCKS)).countP
            (fun x => (mark_block_as_free p.1 (p.2.blk it)).bitmap x) := by
  rw [free_file_blocks_step, if_pos ⟨h1, h2⟩]
  exact ⟨rfl, rfl, (mark_block_as_free_parts _ _).1, rfl, rfl⟩

theorem free_fold_spec (s : FSState) (ino : inode) (cnt : Nat) (hm : s.mounted = true)
    (hval : ∀ j, j < cnt →
      10 ≤ ino.blk j ∧ ino.blk j < MAX_BLOCKS ∧ s.bitmap (ino.blk j) = true)
    (hdist : ∀ j1 j2, j1 < j2 → j2 < cnt → ino.blk j1 ≠ ino.blk j2) :
    ∀ m, m ≤ cnt →
      ((List.range m).foldl free_file_blocks_step (s, ino)).1.free_blocks
          = s.free_blocks + (m : Int) ∧
      popcountData ((List.range m).foldl free_file_blocks_step (s, ino)).1 + m
          = popcountData s ∧
      (∀ j, m ≤ j →
        ((List.range m).foldl free_file_blocks_step (s, ino)).2.blk j = ino.blk j) ∧
      (∀ b, (∃ j, j < m ∧ ino.blk j = b) →
        ((List.range m).foldl free_file_blocks_step (s, ino)).1.bitmap b = false) ∧
      (∀ b, (∀ j, j < m → ino.blk j ≠ b) →
        ((List.range m).foldl free_file_blocks_step (s, ino)).1.bitmap b = s.bitmap b) := by
  intro m
  induction m with
  | zero =>
    intro _
    refine ⟨by simp, by simp, fun j _ => rfl, ?_, fun b _ => rfl⟩
    rintro b ⟨j, hj, -⟩
    omega
  | succ m ih =>
    intro hmc
    obtain ⟨ih_fb, ih_pc, ih_blk, ih_clear, ih_keep⟩ := ih (by omega)
    rw [List.range_succ, List.foldl_append, List.foldl_cons, List.foldl_nil]
    set q := (List.range m).foldl free_file_blocks_step (s, ino) with hqdef
    have hq := free_fold_parts (List.range m) (s, ino)
    rw [← hqdef] at hq
    have hqm : q.1.mounted = true := by rw [hq.1.1, hm]
    have hblkm : q.2.blk m = ino.blk m := ih_blk m (le_refl m)
    have hvm := hval m (by omega)
    have hvm1 : 10 ≤ q.2.blk m := by rw [hblkm]; exact hvm.1
    have hvm2 : q.2.blk m < MAX_BLOCKS := by rw [hblkm]; exact hvm.2.1
    have hqbit : q.1.bitmap (q.2.blk m) = true := by
      rw [hblkm, ih_keep (ino.blk m) (fun j hj => hdist j m hj (by omega))]
      exact hvm.2.2
    have hsp := free_file_blocks_step_spec q m (by omega) hvm2
    have hmark_bm := mark_block_as_free_bitmap q.1 (q.2.blk m) hqm hvm2
    have hmem : q.2.blk m ∈ List.range' METADATA_BLOCKS (MAX_BLOCKS - METADATA_BLOCKS) := by
      rw [mem_range'_iff]
      constructor
      · simp only [METADATA_BLOCKS]
        omega
      · simp only [METADATA_BLOCKS, MAX_BLOCKS] at hvm2 ⊢
        omega
    refine ⟨?_, ?_, ?_, ?_, ?_⟩
    · rw [hsp.1, (mark_block_as_free_parts _ _).2.1, ih_fb]
      push_cast
      ring
    · have hpc2 : popcountData (free_file_blocks_step q m).1 + 1 = popcountData q.1 := by
        rw [hsp.2.2.2.2]
        simp only [hmark_bm]
        exact countP_update_of_true (q.2.blk m) q.1.bitmap hqbit
          (List.range' METADATA_BLOCKS (MAX_BLOCKS - METADATA_BLOCKS))
          (List.nodup_range' _ _) hmem
      omega
    · intro j hj
      rw [hsp.2.2.2.1, Function.update_noteq (by omega)]
      exact ih_blk j (by omega)
    · rintro b ⟨j, hj, rfl⟩
      rw [hsp.2.1, hmark_bm]
      by_cases hjm : ino.blk j = q.2.blk m
      · rw [hjm, Function.update_same]
      · rw [Function.update_noteq hjm]
        apply ih_clear
        refine ⟨j, ?_, rfl⟩
        by_cases hjlt : j < m
        · exact hjlt
        · exfalso
          have hjeq : j = m := by omega
          subst hjeq
          rw [hblkm] at hjm
          exact hjm rfl
    · intro b hb
      rw [hsp.2.1, hmark_bm,
        Function.update_noteq (by rw [hblkm]; exact Ne.symm (hb m (by omega)))]
      exact ih_keep b (fun j hj => hb j (by omega))

theorem free_file_existing_blocks_spec (s : FSState) (ino : inode) (hm : s.mounted = true)
    (hval : ∀ j, j < (ino.size + BLOCK_SIZE - 1) / BLOCK_SIZE →
      10 ≤ ino.blk j ∧ ino.blk j < MAX_BLOCKS ∧ s.bitmap (ino.blk j) = true)
    (hdist : ∀ j1 j2, j1 < j2 → j2 < (ino.size + BLOCK_SIZE - 1) / BLOCK_SIZE →
      ino.blk j1 ≠ ino.blk j2) :
    (free_file_existing_blocks s ino).1.free_blocks
        = s.free_blocks + (((ino.size + BLOCK_SIZE - 1) / BLOCK_SIZE : Nat) : Int) ∧
    popcountData (free_file_existing_blocks s ino).1
        + (ino.size + BLOCK_SIZE - 1) / BLOCK_SIZE = popcountData s ∧
    (∀ b, (∃ j, j < (ino.size + BLOCK_SIZE - 1) / BLOCK_SIZE ∧ ino.blk j = b) →
      (free_file_existing_blocks s ino).1.bitmap b = false) ∧
    (∀ b, (∀ j, j < (ino.size + BLOCK_SIZE - 1) / BLOCK_SIZE → ino.blk j ≠ b) →
      (free_file_existing_blocks s ino).1.bitmap b = s.bitmap b) := by
  have h := free_fold_spec s ino ((ino.size + BLOCK_SIZE - 1) / BLOCK_SIZE) hm hval hdist
    ((ino.size + BLOCK_SIZE - 1) / BLOCK_SIZE) (le_refl _)
  exact ⟨h.1, h.2.1, h.2.2.2.1, h.2.2.2.2⟩

theorem fsinv_init : FSInv fs_format_state := by
  refine ⟨rfl, ?_, ?_, ?_⟩
  · have h : popcountData fs_format_state = 0 := by decide
    rw [h]
    simp [fs_format_state, MAX_BLOCKS, METADATA_BLOCKS]
  · intro i _ hused
    exact absurd hused (by simp [fs_format_state, zeroInode])
  · intro i1 i2 _ _ _ hused
    exact absurd hused (by simp [fs_format_state, zeroInode])

theorem popcountData_inodes_irrelevant (s : FSState) (f : Nat → inode) (v : Int) :
    popcountData { s with inodes := f, free_inodes := v } = popcountData s := rfl

theorem fs_create_state_cases (s : FSState) (n : List Nat) :
    (fs_create s n).2 = s ∨
    (∃ i, find_free_inode s = some i ∧ s.mounted = true ∧ 1 ≤ n.length ∧
      n.length ≤ MAX_FILENAME ∧ find_inode_by_name s n = none ∧
      (s.inodes i).used = false ∧
      (fs_create s n).2 = { s with
        inodes := Function.update s.inodes i
          ⟨true, n.take (MAX_FILENAME - 1), 0, fun _ => 0⟩
        free_inodes := s.free_inodes - 1 }) := by
  by_cases hm : s.mounted
  · by_cases hname : n.length = 0 ∨ n.length > MAX_FILENAME
    · left
      rw [fs_create, if_neg (by simp [hm]), if_pos hname]
    · by_cases hfind : (find_inode_by_name s n).isSome
      · left
        rw [fs_create, if_neg (by simp [hm]), if_neg hname, if_pos hfind]
      · cases hfree : find_free_inode s with
        | none =>
          left
          rw [fs_create, if_neg (by simp [hm]), if_neg hname, if_neg hfind, hfree]
        | some i =>
          right
          push_neg at hname
          have hm' : s.mounted = true := by simpa using hm
          refine ⟨i, rfl, hm', by omega, by omega,
            Option.not_isSome_iff_eq_none.1 hfind,
            ((find_free_inode_some_iff s hm' i).1 hfree).2.1, ?_⟩
          rw [fs_create, if_neg (by simp [hm]), if_neg (by push_neg; exact ⟨hname.1, hname.2⟩),
            if_neg hfind, hfree]
  · left
    rw [fs_create, if_pos (by simpa using hm)]

theorem fsinv_create (s : FSState) (n : List Nat) (hInv : FSInv s) (hcs : CStr n) :
    FSInv (fs_create s n).2 := by
  rcases fs_create_state_cases s n with h | ⟨i, hfree, hm, hl1, hl2, hfind, hunused, h⟩
  · rw [h]; exact hInv
  · rw [h]
    obtain ⟨im, i1, i3, i4⟩ := hInv
    have hbm : ({ s with
        inodes := Function.update s.inodes i
          ⟨true, n.take (MAX_FILENAME - 1), 0, fun _ => 0⟩
        free_inodes := s.free_inodes - 1 } : FSState).bitmap = s.bitmap := rfl
    have hcnt0 : ((0 : Nat) + BLOCK_SIZE - 1) / BLOCK_SIZE = 0 := by
      simp only [BLOCK_SIZE]
    have hproj : ∀ j, ({ s with
        inodes := Function.update s.inodes i
          ⟨true, n.take (MAX_FILENAME - 1), 0, fun _ => 0⟩
        free_inodes := s.free_inodes - 1 } : FSState).inodes j =
        Function.update s.inodes i
          ⟨true, n.take (MAX_FILENAME - 1), 0, fun _ => 0⟩ j := fun _ => rfl
    refine ⟨im, ?_, ?_, ?_⟩
    · show s.free_blocks = _
      rw [popcountData_inodes_irrelevant]
      exact i1
    · intro j hj hused
      by_cases hji : j = i
      · subst hji
        rw [hproj j, Function.update_same]
        rw [hproj j, Function.update_same] at hused
        refine ⟨by simp [MAX_DIRECT_BLOCKS, BLOCK_SIZE], ?_, ?_, ?_, ?_, ?_⟩
        · show 1 ≤ (n.take (MAX_FILENAME - 1)).length
          rw [List.length_take]
          simp only [MAX_FILENAME] at hl2 ⊢
          omega
        · show (n.take (MAX_FILENAME - 1)).length ≤ MAX_FILENAME - 1
          rw [List.length_take]
          omega
        · exact cstr_take n hcs _
        · intro j' hj'
          rw [hcnt0] at hj'
          omega
        · intro j1 j2 hj1 hj2
          rw [hcnt0] at hj2
          omega
      · rw [hproj j, Function.update_noteq hji] at hused ⊢
        rw [hbm]
        exact i3 j hj hused
    · intro j1 j2 hj1 hj2 hne hu1 hu2 jj1 jj2 hjj1 hjj2
      rw [hproj j1] at hu1 hjj1 ⊢
      rw [hproj j2] at hu2 hjj2 ⊢
      by_cases h1i : j1 = i
      · subst h1i
        rw [Function.update_same] at hjj1
        rw [hcnt0] at hjj1
        omega
      · by_cases h2i : j2 = i
        · subst h2i
          rw [Function.update_same] at hjj2
          rw [hcnt0] at hjj2
          omega
        · rw [Function.update_noteq h1i] at hu1 hjj1 ⊢
          rw [Function.update_noteq h2i] at hu2 hjj2 ⊢
          exact i4 j1 j2 hj1 hj2 hne hu1 hu2 jj1 jj2 hjj1 hjj2

theorem fs_delete_state_cases (s : FSState) (n : List Nat) :
    (fs_delete s n).2 = s ∨
    (∃ i, s.mounted = true ∧ find_inode_by_name s n = some i ∧
      (fs_delete s n).2 = { (free_file_existing_blocks s (s.inodes i)).1 with
        inodes := Function.update
          (free_file_existing_blocks s (s.inodes i)).1.inodes i zeroInode
        free_inodes := (free_file_existing_blocks s (s.inodes i)).1.free_inodes + 1 }) := by
  by_cases hm : s.mounted
  · by_cases hname : n.length = 0 ∨ n.length > MAX_FILENAME
    · left
      rw [fs_delete, if_neg (by simp [hm]), if_pos hname]
    · cases hfind : find_inode_by_name s n with
      | none =>
        left
        rw [fs_delete, if_neg (by simp [hm]), if_neg hname, hfind]
      | some i =>
        right
        refine ⟨i, by simpa using hm, rfl, ?_⟩
        rw [fs_delete, if_neg (by simp [hm]), if_neg hname, hfind]
  · left
    rw [fs_delete, if_pos (by simpa using hm)]

theorem fsinv_delete (s : FSState) (n : List Nat) (hInv : FSInv s) :
    FSInv (fs_delete s n).2 := by
  rcases fs_delete_state_cases s n with h | ⟨i, hm, hfind, h⟩
  · rw [h]; exact hInv
  · rw [h]
    obtain ⟨im, i1, i3, i4⟩ := hInv
    have hfp := (find_inode_by_name_some_iff s n im i).1 hfind
    have hiN : i < MAX_FILES := hfp.1
    have hiused : (s.inodes i).used = true := by
      have := hfp.2.1
      rw [Bool.and_eq_true] at this
      exact this.1
    have hi3 := i3 i hiN hiused
    have hffspec := free_file_existing_blocks_spec s (s.inodes i) im
      (fun j hj => ⟨(hi3.2.2.2.2.1 j hj).1, (hi3.2.2.2.2.1 j hj).2.1,
        (hi3.2.2.2.2.1 j hj).2.2⟩)
      hi3.2.2.2.2.2
    obtain ⟨hfb, hpc, hclear, hkeep⟩ := hffspec
    have hffparts := free_file_existing_blocks_parts s (s.inodes i)
    have hproj : ∀ j, ({ (free_file_existing_blocks s (s.inodes i)).1 with
        inodes := Function.update
          (free_file_existing_blocks s (s.inodes i)).1.inodes i zeroInode
        free_inodes := (free_file_existing_blocks s (s.inodes i)).1.free_inodes + 1 }
          : FSState).inodes j =
        Function.update (free_file_existing_blocks s (s.inodes i)).1.inodes i zeroInode j :=
      fun _ => rfl
    have hbmproj : ({ (free_file_existing_blocks s (s.inodes i)).1 with
        inodes := Function.update
          (free_file_existing_blocks s (s.inodes i)).1.inodes i zeroInode
        free_inodes := (free_file_existing_blocks s (s.inodes i)).1.free_inodes + 1 }
          : FSState).bitmap = (free_file_existing_blocks s (s.inodes i)).1.bitmap := rfl
    refine ⟨?_, ?_, ?_, ?_⟩
    · show (free_file_existing_blocks s (s.inodes i)).1.mounted = true
      rw [hffparts.1.1, im]
    · show (free_file_existing_blocks s (s.inodes i)).1.free_blocks = _
      rw [popcountData_inodes_irrelevant, hfb, i1]
      have hle := popcountData_le s
      simp only [MAX_BLOCKS, METADATA_BLOCKS] at hle ⊢
      push_cast
      omega
    · intro j hj hused
      rw [hproj j] at hused ⊢
      by_cases hji : j = i
      · subst hji
        rw [Function.update_same] at hused
        exact absurd hused (by simp [zeroInode])
      · rw [Function.update_noteq hji] at hused ⊢
        rw [hffparts.1.2.1] at hused ⊢
        rw [hbmproj]
        have hj3 := i3 j hj hused
        refine ⟨hj3.1, hj3.2.1, hj3.2.2.1, hj3.2.2.2.1, ?_, hj3.2.2.2.2.2⟩
        intro j' hj'
        refine ⟨(hj3.2.2.2.2.1 j' hj').1, (hj3.2.2.2.2.1 j' hj').2.1, ?_⟩
        rw [hkeep ((s.inodes j).blk j')
          (fun jj hjj => i4 i j hiN hj (Ne.symm hji) hiused hused jj j' hjj hj')]
        exact (hj3.2.2.2.2.1 j' hj').2.2
    · intro j1 j2 hj1 hj2 hne hu1 hu2
      rw [hproj j1] at hu1 ⊢
      rw [hproj j2] at hu2 ⊢
      by_cases h1i : j1 = i
      · subst h1i
        rw [Function.update_same] at hu1
        exact absurd hu1 (by simp [zeroInode])
      · by_cases h2i : j2 = i
        · subst h2i
          rw [Function.update_same] at hu2
          exact absurd hu2 (by simp [zeroInode])
        · rw [Function.update_noteq h1i] at hu1 ⊢
          rw [Function.update_noteq h2i] at hu2 ⊢
          rw [hffparts.1.2.1] at hu1 hu2 ⊢
          exact i4 j1 j2 hj1 hj2 hne hu1 hu2

theorem popcountData_congr (s t : FSState) (h : s.bitmap = t.bitmap) :
    popcountData s = popcountData t := by
  simp only [popcountData, h]

theorem fs_write_pipeline (s : FSState) (n D : List Nat) (size : Int) (i : Nat)
    (hInv : FSInv s)
    (hv : validate_write_operation_parameters s n size = 0)
    (hfind : find_inode_by_name s n = some i)
    (hchk : ¬ check_available_space_for_write_operation s
      ((size.toNat + BLOCK_SIZE - 1) / BLOCK_SIZE) (s.inodes i).size < 0) :
    (fs_write s n D size).1 = 0 ∧ FSInv (fs_write s n D size).2 := by
  obtain ⟨hm, hn1, hn2, hpos, hbound⟩ := (validate_write_eq_zero_iff s n size).1 hv
  obtain ⟨im, i1, i3, i4⟩ := hInv
  have hfp := (find_inode_by_name_some_iff s n hm i).1 hfind
  have hiN : i < MAX_FILES := hfp.1
  have hiused : (s.inodes i).used = true := by
    have := hfp.2.1
    rw [Bool.and_eq_true] at this
    exact this.1
  have hi3 := i3 i hiN hiused
  -- shorthands
  set sz := size.toNat with hszdef
  have hsz1 : 1 ≤ sz := by rw [hszdef]; omega
  set bn := (sz + BLOCK_SIZE - 1) / BLOCK_SIZE with hbndef
  have hbn1 : 1 ≤ bn := by
    rw [hbndef]
    simp only [BLOCK_SIZE]
    omega
  have hbne : bn ≠ 0 := by omega
  set cnt := ((s.inodes i).size + BLOCK_SIZE - 1) / BLOCK_SIZE with hcntdef
  -- the space check passed
  have hle : (bn : Int) ≤ s.free_blocks + (cnt : Int) := by
    by_contra hgt
    push_neg at hgt
    rw [check_available_space_for_write_operation] at hchk
    rw [if_pos (by rw [← hcntdef]; exact hgt)] at hchk
    norm_num at hchk
  -- free the old blocks
  have hffspec := free_file_existing_blocks_spec s (s.inodes i) hm
    (fun j hj => ⟨(hi3.2.2.2.2.1 j hj).1, (hi3.2.2.2.2.1 j hj).2.1,
      (hi3.2.2.2.2.1 j hj).2.2⟩)
    hi3.2.2.2.2.2
  obtain ⟨hfb, hpc, hclear, hkeep⟩ := hffspec
  rw [← hcntdef] at hfb hpc hclear hkeep
  have hffparts := free_file_existing_blocks_parts s (s.inodes i)
  have hF1m : (free_file_existing_blocks s (s.inodes i)).1.mounted = true := by
    rw [hffparts.1.1, hm]
  -- enough room for the allocation
  have hpcbound : popcountData (free_file_existing_blocks s (s.inodes i)).1 + bn ≤
      MAX_BLOCKS - METADATA_BLOCKS := by
    have hle2 := popcountData_le s
    rw [i1] at hle
    simp only [MAX_BLOCKS, METADATA_BLOCKS] at hle hle2 ⊢
    omega
  have henough := allocate_blocks_go_enough bn 0
    (free_file_existing_blocks s (s.inodes i)).1
    (free_file_existing_blocks s (s.inodes i)).2 hF1m hpcbound
  rcases hA : allocate_blocks_go bn 0 (free_file_existing_blocks s (s.inodes i)).1
      (free_file_existing_blocks s (s.inodes i)).2 with ⟨code, s2x, ino2⟩
  rw [hA] at henough
  have hcode0 : code = 0 := henough
  subst hcode0
  have hAspec := allocate_blocks_go_spec bn 0 (free_file_existing_blocks s (s.inodes i)).1
    (free_file_existing_blocks s (s.inodes i)).2 s2x ino2 hF1m hA
  obtain ⟨sp_m, sp_i, sp_d, sp_fi, sp_fb, sp_pc, sp_u, sp_n, sp_sz, sp_out, sp_in,
    sp_dist, sp_mono⟩ := hAspec
  -- reduce the goal to the final state
  have heq : fs_write s n D size = (0,
      { (write_data_to_allocated_blocks s2x ino2 D sz bn).2 with
          inodes := Function.update
            (write_data_to_allocated_blocks s2x ino2 D sz bn).2.inodes i
            { ino2 with size := sz } }) := by
    simp only [fs_write]
    rw [if_neg (by simp [hv]), hfind]
    dsimp only
    rw [← hszdef, ← hbndef, if_neg hchk, allocate_blocks_for_file, if_neg hbne, hA]
    dsimp only
    rw [if_neg (by norm_num)]
    rw [write_data_success s2x ino2 D sz bn (by omega) hbne]
    dsimp only
    rw [if_neg (by norm_num)]
  rw [heq]
  have hWeq := write_data_success s2x ino2 D sz bn (by omega) hbne
  have hW2 : (write_data_to_allocated_blocks s2x ino2 D sz bn).2 = { s2x with
      data := (List.range bn).foldl
        (fun d block_iterator => Function.update d (ino2.blk block_iterator)
          (fun off => if block_iterator * BLOCK_SIZE + off < sz ∧ off < BLOCK_SIZE
            then D.getD (block_iterator * BLOCK_SIZE + off) 0 else 0))
        s2x.data } := by rw [hWeq]
  refine ⟨rfl, ?_⟩
  -- component equalities of the final state
  have hW2i : (write_data_to_allocated_blocks s2x ino2 D sz bn).2.inodes = s2x.inodes := by
    rw [hW2]
  have hW2bm : (write_data_to_allocated_blocks s2x ino2 D sz bn).2.bitmap = s2x.bitmap := by
    rw [hW2]
  have hW2fb : (write_data_to_allocated_blocks s2x ino2 D sz bn).2.free_blocks
      = s2x.free_blocks := by rw [hW2]
  have hW2m : (write_data_to_allocated_blocks s2x ino2 D sz bn).2.mounted = s2x.mounted := by
    rw [hW2]
  have hproj : ∀ j, ({ (write_data_to_allocated_blocks s2x ino2 D sz bn).2 with
      inodes := Function.update
        (write_data_to_allocated_blocks s2x ino2 D sz bn).2.inodes i
        { ino2 with size := sz } } : FSState).inodes j =
      Function.update s2x.inodes i { ino2 with size := sz } j := by
    intro j
    show Function.update (write_data_to_allocated_blocks s2x ino2 D sz bn).2.inodes i
      { ino2 with size := sz } j = _
    rw [hW2i]
  have hbmproj : ({ (write_data_to_allocated_blocks s2x ino2 D sz bn).2 with
      inodes := Function.update
        (write_data_to_allocated_blocks s2x ino2 D sz bn).2.inodes i
        { ino2 with size := sz } } : FSState).bitmap = s2x.bitmap := hW2bm
  have hsinodes : s2x.inodes = s.inodes := by
    rw [sp_i, hffparts.1.2.1]
  have hino3sz : ({ ino2 with size := sz } : inode).size = sz := rfl
  have hino3blk : ({ ino2 with size := sz } : inode).blk = ino2.blk := rfl
  have hino3name : ({ ino2 with size := sz } : inode).name = (s.inodes i).name := by
    show ino2.name = _
    rw [sp_n, hffparts.2.2.1]
  -- blocks of other used files stay set through free + allocate
  have hotherset : ∀ j, j < MAX_FILES → j ≠ i → (s.inodes j).used = true →
      ∀ j', j' < ((s.inodes j).size + BLOCK_SIZE - 1) / BLOCK_SIZE →
        s2x.bitmap ((s.inodes j).blk j') = true := by
    intro j hj hji hused j' hj'
    apply sp_mono
    rw [hkeep ((s.inodes j).blk j')
      (fun jj hjj => i4 i j hiN hj (Ne.symm hji) hiused hused jj j' hjj hj')]
    exact (i3 j hj hused).2.2.2.2.1 j' hj' |>.2.2
  refine ⟨?_, ?_, ?_, ?_⟩
  · show (write_data_to_allocated_blocks s2x ino2 D sz bn).2.mounted = true
    rw [hW2m, sp_m, hF1m]
  · show (write_data_to_allocated_blocks s2x ino2 D sz bn).2.free_blocks = _
    rw [hW2fb, sp_fb, hfb, i1]
    rw [popcountData_congr _ s2x hbmproj, sp_pc]
    have hle2 := popcountData_le s
    simp only [MAX_BLOCKS, METADATA_BLOCKS] at hle2 ⊢
    push_cast
    omega
  · intro j hj hused
    rw [hproj j] at hused ⊢
    by_cases hji : j = i
    · subst hji
      rw [Function.update_same] at hused ⊢
      rw [hbmproj, hino3sz, hino3blk, hino3name]
      have hsle : sz ≤ MAX_DIRECT_BLOCKS * BLOCK_SIZE := by
        simp only [MAX_DIRECT_BLOCKS, BLOCK_SIZE] at hbound ⊢
        omega
      refine ⟨hsle, hi3.2.1, hi3.2.2.1, hi3.2.2.2.1, ?_, ?_⟩
      · intro j' hj'
        rw [← hbndef] at hj'
        have hin := sp_in j' (Nat.zero_le j') (by omega)
        exact ⟨hin.1, hin.2.1, hin.2.2.2⟩
      · intro j1 j2 hj1 hj2
        rw [← hbndef] at hj2
        exact sp_dist j1 j2 (Nat.zero_le j1) hj1 (by omega)
    · rw [Function.update_noteq hji] at hused ⊢
      rw [hsinodes] at hused ⊢
      rw [hbmproj]
      have hj3 := i3 j hj hused
      refine ⟨hj3.1, hj3.2.1, hj3.2.2.1, hj3.2.2.2.1, ?_, hj3.2.2.2.2.2⟩
      intro j' hj'
      exact ⟨(hj3.2.2.2.2.1 j' hj').1, (hj3.2.2.2.2.1 j' hj').2.1,
        hotherset j hj hji hused j' hj'⟩
  · intro j1 j2 hj1 hj2 hne hu1 hu2 jj1 jj2 hjj1 hjj2
    rw [hproj j1] at hu1 hjj1 ⊢
    rw [hproj j2] at hu2 hjj2 ⊢
    by_cases h1i : j1 = i
    · subst h1i
      rw [Function.update_same] at hjj1 ⊢
      rw [hino3sz, ← hbndef] at hjj1
      rw [hino3blk]
      have hin := sp_in jj1 (Nat.zero_le jj1) (by omega)
      rw [Function.update_noteq (Ne.symm hne)] at hu2 hjj2 ⊢
      rw [hsinodes] at hu2 hjj2 ⊢
      intro heq
      have hset := hkeep ((s.inodes j2).blk jj2)
        (fun jj hjj => i4 j1 j2 hiN hj2 hne hiused hu2 jj jj2 hjj hjj2)
      rw [(i3 j2 hj2 hu2).2.2.2.2.1 jj2 hjj2 |>.2.2] at hset
      rw [heq, hset] at hin
      have := hin.2.2.1
      cases this
    · by_cases h2i : j2 = i
      · subst h2i
        rw [Function.update_same] at hjj2 ⊢
        rw [hino3sz, ← hbndef] at hjj2
        rw [hino3blk]
        have hin := sp_in jj2 (Nat.zero_le jj2) (by omega)
        rw [Function.update_noteq h1i] at hu1 hjj1 ⊢
        rw [hsinodes] at hu1 hjj1 ⊢
        intro heq
        have hset := hkeep ((s.inodes j1).blk jj1)
          (fun jj hjj => i4 j2 j1 hiN hj1 (Ne.symm h1i) hiused hu1 jj jj1 hjj hjj1)
        rw [(i3 j1 hj1 hu1).2.2.2.2.1 jj1 hjj1 |>.2.2] at hset
        rw [← heq, hset] at hin
        have := hin.2.2.1
        cases this
      · rw [Function.update_noteq h1i] at hu1 hjj1 ⊢
        rw [Function.update_noteq h2i] at hu2 hjj2 ⊢
        rw [hsinodes] at hu1 hu2 hjj1 hjj2 ⊢
        exact i4 j1 j2 hj1 hj2 hne hu1 hu2 jj1 jj2 hjj1 hjj2

theorem fsinv_write (s : FSState) (n D : List Nat) (size : Int) (hInv : FSInv s) :
    FSInv (fs_write s n D size).2 := by
  by_cases hv : validate_write_operation_parameters s n size = 0
  · cases hfind : find_inode_by_name s n with
    | none =>
      rw [(fs_write_early_error_state s n D size).2.1 hv hfind]
      exact hInv
    | some i =>
      by_cases hchk : check_available_space_for_write_operation s
          ((size.toNat + BLOCK_SIZE - 1) / BLOCK_SIZE) (s.inodes i).size < 0
      · rw [(fs_write_early_error_state s n D size).2.2 i hv hfind hchk]
        exact hInv
      · exact (fs_write_pipeline s n D size i hInv hv hfind hchk).2
  · rw [(fs_write_early_error_state s n D size).1 hv]
    exact hInv

theorem reachable_fsinv (s : FSState) (h : Reachable s) : FSInv s := by
  induction h with
  | init => exact fsinv_init
  | create n _ hcs ih => exact fsinv_create _ n ih hcs
  | write n d sz _ _ ih => exact fsinv_write _ n d sz ih
  | delete n _ _ ih => exact fsinv_delete _ n ih

/-- Claim C4 counterexample: on a freshly formatted, mounted image (zero
operations applied), `free_blocks` is `MAX_BLOCKS - METADATA_BLOCKS = 2550`
while `TOTAL_BLOCKS` minus the popcount of the bitmap among indices
`≥ METADATA_BLOCKS` is `2560 - 0 = 2560`: the claimed equation omits the
`METADATA_BLOCKS` reserved blocks. -/
theorem free_blocks_popcount_counterexample :
    Reachable fs_format_state ∧
    fs_format_state.free_blocks ≠ (MAX_BLOCKS : Int) - (popcountData fs_format_state : Int) :=
  ⟨Reachable.init, by decide⟩

/-- Claim C4 (amended): for every sequence of legal operations applied to a
freshly formatted, mounted image, the cached superblock field `free_blocks`
always equals `TOTAL_BLOCKS - METADATA_BLOCKS` minus the number of set bits
in the block allocation bitmap among indices `≥ METADATA_BLOCKS`. -/
theorem free_blocks_matches_bitmap (s : FSState) (h : Reachable s) :
    s.free_blocks = ((MAX_BLOCKS - METADATA_BLOCKS : Nat) : Int) - (popcountData s : Int) :=
  (reachable_fsinv s h).2.1

theorem free_blocks_matches_bitmap_witness :
    fs_format_state.free_blocks =
      ((MAX_BLOCKS - METADATA_BLOCKS : Nat) : Int) - (popcountData fs_format_state : Int) :=
  free_blocks_matches_bitmap fs_format_state Reachable.init

/-- Claim C2: in every reachable mounted state with a NUL-free name naming an
existing file and a positive size, `fs_write` returns the "no-space" code
`-2` exactly when the size exceeds `MAX_DIRECT_BLOCKS * BLOCK_SIZE`, or
`⌈size/BLOCK_SIZE⌉` exceeds the cached `free_blocks` plus
`⌈old_size/BLOCK_SIZE⌉` for the file's recorded old size. -/
theorem fs_write_no_space_iff (s : FSState) (n data : List Nat) (size : Int) (i : Nat)
    (hreach : Reachable s) (hm : s.mounted = true) (hcs : CStr n) (hsz : 0 < size)
    (hfind : find_inode_by_name s n = some i) :
    (fs_write s n data size).1 = -2 ↔
      (size > ((MAX_DIRECT_BLOCKS * BLOCK_SIZE : Nat) : Int) ∨
        (((size.toNat + BLOCK_SIZE - 1) / BLOCK_SIZE : Nat) : Int) >
          s.free_blocks + ((((s.inodes i).size + BLOCK_SIZE - 1) / BLOCK_SIZE : Nat) : Int)) := by
  have hInv := reachable_fsinv s hreach
  have hfp := (find_inode_by_name_some_iff s n hm i).1 hfind
  have hiN : i < MAX_FILES := hfp.1
  have hpred := hfp.2.1
  rw [Bool.and_eq_true] at hpred
  have hiused : (s.inodes i).used = true := hpred.1
  have hcmp : compare_strings (s.inodes i).name n = 0 := by
    have := hpred.2
    rwa [beq_iff_eq] at this
  have hi3 := hInv.2.2.1 i hiN hiused
  have hnameeq : (s.inodes i).name = n :=
    compare_strings_eq_zero _ _ hi3.2.2.2.1 hcs hcmp
  have hlen1 : n.length ≠ 0 := by
    rw [← hnameeq]
    omega
  have hlen2 : n.length ≤ MAX_FILENAME := by
    rw [← hnameeq]
    simp only [MAX_FILENAME] at hi3 ⊢
    omega
  by_cases hbig : size > ((MAX_DIRECT_BLOCKS * BLOCK_SIZE : Nat) : Int)
  · have hveq : validate_write_operation_parameters s n size = -2 := by
      rw [validate_write_operation_parameters, if_neg (by simp [hm]),
        if_neg (by push_neg; exact ⟨hlen1, by omega, by omega⟩), if_pos hbig]
    have heq := (fs_write_early_error_state s n data size).1 (by rw [hveq]; norm_num)
    rw [heq, hveq]
    exact ⟨fun _ => Or.inl hbig, fun _ => rfl⟩
  · have hv : validate_write_operation_parameters s n size = 0 := by
      rw [validate_write_operation_parameters, if_neg (by simp [hm]),
        if_neg (by push_neg; exact ⟨hlen1, by omega, by omega⟩), if_neg hbig]
    by_cases hchk : check_available_space_for_write_operation s
        ((size.toNat + BLOCK_SIZE - 1) / BLOCK_SIZE) (s.inodes i).size < 0
    · have hcond : (((size.toNat + BLOCK_SIZE - 1) / BLOCK_SIZE : Nat) : Int) >
          s.free_blocks + ((((s.inodes i).size + BLOCK_SIZE - 1) / BLOCK_SIZE : Nat) : Int) := by
        by_contra hnot
        rw [check_available_space_for_write_operation, if_neg hnot] at hchk
        norm_num at hchk
      have hchkval : check_available_space_for_write_operation s
          ((size.toNat + BLOCK_SIZE - 1) / BLOCK_SIZE) (s.inodes i).size = -2 := by
        rw [check_available_space_for_write_operation, if_pos hcond]
      have heq := (fs_write_early_error_state s n data size).2.2 i hv hfind hchk
      rw [heq, hchkval]
      exact ⟨fun _ => Or.inr hcond, fun _ => rfl⟩
    · have hpipe := fs_write_pipeline s n data size i hInv hv hfind hchk
      rw [hpipe.1]
      have hnotcond : ¬ ((((size.toNat + BLOCK_SIZE - 1) / BLOCK_SIZE : Nat) : Int) >
          s.free_blocks +
            ((((s.inodes i).size + BLOCK_SIZE - 1) / BLOCK_SIZE : Nat) : Int)) := by
        intro hcond
        rw [check_available_space_for_write_operation, if_pos hcond] at hchk
        norm_num at hchk
      constructor
      · intro h
        norm_num at h
      · intro h
        rcases h with h | h
        · exact absurd h hbig
        · exact absurd h hnotcond

theorem fs_write_no_space_iff_witness :
    (fs_write (fs_create fs_format_state [97]).2 [97] [1] 1).1 ≠ -2 := by
  have hcs : CStr [97] := by
    intro b hb
    simp only [List.mem_singleton] at hb
    omega
  have h := fs_write_no_space_iff (fs_create fs_format_state [97]).2 [97] [1] 1 0
    (Reachable.create [97] Reachable.init hcs) (by decide) hcs (by decide) (by decide)
  intro heq
  rcases h.1 heq with h2 | h2
  · revert h2
    decide
  · revert h2
    decide

theorem find?_congr {α : Type} (p q : α → Bool) :
    ∀ l : List α, (∀ x ∈ l, p x = q x) → l.find? p = l.find? q := by
  intro l
  induction l with
  | nil => intro _; rfl
  | cons a t ih =>
    intro h
    have ha := h a (List.mem_cons_self a t)
    by_cases hp : p a
    · rw [List.find?_cons_of_pos _ hp, List.find?_cons_of_pos _ (by rw [← ha]; exact hp)]
    · rw [List.find?_cons_of_neg _ hp, List.find?_cons_of_neg _ (by rw [← ha]; exact hp),
        ih (fun x hx => h x (List.mem_cons_of_mem _ hx))]

theorem obs_inode_pred_eq (s t : FSState) (h : ObsEquiv s t) (i : Nat) (n : List Nat) :
    ((s.inodes i).used && (compare_strings (s.inodes i).name n == 0)) =
    ((t.inodes i).used && (compare_strings (t.inodes i).name n == 0)) := by
  by_cases hu : (s.inodes i).used = true
  · rw [h.2.2.2.2.2.2 i hu]
  · have hsu : (s.inodes i).used = false := by simpa using hu
    have htu : (t.inodes i).used = false := by rw [← h.2.2.2.2.2.1 i]; exact hsu
    rw [hsu, htu]
    simp

theorem find_inode_by_name_congr (s t : FSState) (h : ObsEquiv s t) (n : List Nat) :
    find_inode_by_name s n = find_inode_by_name t n := by
  by_cases hm : t.mounted = true
  · have hs : find_inode_by_name s n = (List.range MAX_FILES).find? fun i =>
        (s.inodes i).used && (compare_strings (s.inodes i).name n == 0) := by
      rw [find_inode_by_name, if_neg (by simp [h.1, hm])]
    have ht : find_inode_by_name t n = (List.range MAX_FILES).find? fun i =>
        (t.inodes i).used && (compare_strings (t.inodes i).name n == 0) := by
      rw [find_inode_by_name, if_neg (by simp [hm])]
    rw [hs, ht]
    exact find?_congr _ _ _ (fun i _ => obs_inode_pred_eq s t h i n)
  · have hs : find_inode_by_name s n = none := by
      rw [find_inode_by_name, if_pos (by rw [h.1]; simpa using hm)]
    have ht : find_inode_by_name t n = none := by
      rw [find_inode_by_name, if_pos (by simpa using hm)]
    rw [hs, ht]

theorem find_free_inode_congr (s t : FSState) (h : ObsEquiv s t) :
    find_free_inode s = find_free_inode t := by
  by_cases hm : t.mounted = true
  · have hs : find_free_inode s = (List.range MAX_FILES).find? fun i =>
        !(s.inodes i).used := by
      rw [find_free_inode, if_neg (by simp [h.1, hm])]
    have ht : find_free_inode t = (List.range MAX_FILES).find? fun i =>
        !(t.inodes i).used := by
      rw [find_free_inode, if_neg (by simp [hm])]
    rw [hs, ht]
    exact find?_congr _ _ _ (fun i _ => by rw [h.2.2.2.2.2.1 i])
  · have hs : find_free_inode s = none := by
      rw [find_free_inode, if_pos (by rw [h.1]; simpa using hm)]
    have ht : find_free_inode t = none := by
      rw [find_free_inode, if_pos (by simpa using hm)]
    rw [hs, ht]

theorem find_free_block_core (s t : FSState) (hm : s.mounted = t.mounted)
    (hbm : s.bitmap = t.bitmap) :
    find_free_block s = find_free_block t := by
  rw [find_free_block, find_free_block, validate_block_number_and_filesystem,
    validate_block_number_and_filesystem, hm, hbm]

theorem fs_used_inode_eq (s t : FSState) (h : ObsEquiv s t) (n : List Nat) (i : Nat)
    (hfind : find_inode_by_name s n = some i) (hm : s.mounted = true) :
    s.inodes i = t.inodes i := by
  have hfp := (find_inode_by_name_some_iff s n hm i).1 hfind
  have := hfp.2.1
  rw [Bool.and_eq_true] at this
  exact h.2.2.2.2.2.2 i this.1

theorem fs_read_congr (s t : FSState) (h : ObsEquiv s t) (n : List Nat) (size : Int) :
    fs_read s n size = fs_read t n size := by
  by_cases hm : t.mounted = true
  case neg =>
    have hs : fs_read s n size = (-1, []) := by
      rw [fs_read, if_pos (by rw [h.1]; simpa using hm)]
    have ht : fs_read t n size = (-1, []) := by
      rw [fs_read, if_pos (by simpa using hm)]
    rw [hs, ht]
  case pos =>
  have hsm : s.mounted = true := by rw [h.1]; exact hm
  by_cases hname : n.length = 0 ∨ n.length > MAX_FILENAME ∨ size ≤ 0
  · have hs : fs_read s n size = (-3, []) := by
      rw [fs_read, if_neg (by simp [hsm]), if_pos hname]
    have ht : fs_read t n size = (-3, []) := by
      rw [fs_read, if_neg (by simp [hm]), if_pos hname]
    rw [hs, ht]
  · cases hfind : find_inode_by_name t n with
    | none =>
      have hs : fs_read s n size = (-1, []) := by
        rw [fs_read, if_neg (by simp [hsm]), if_neg hname,
          find_inode_by_name_congr s t h n, hfind]
      have ht : fs_read t n size = (-1, []) := by
        rw [fs_read, if_neg (by simp [hm]), if_neg hname, hfind]
      rw [hs, ht]
    | some i =>
      have hsfind : find_inode_by_name s n = some i := by
        rw [find_inode_by_name_congr s t h n]; exact hfind
      have hino : s.inodes i = t.inodes i := fs_used_inode_eq s t h n i hsfind hsm
      rw [fs_read, fs_read]
      conv_lhs => rw [if_neg (show ¬¬(s.mounted = true) by simp [hsm]), if_neg hname, hsfind]
      conv_rhs => rw [if_neg (show ¬¬(t.mounted = true) by simp [hm]), if_neg hname, hfind]
      dsimp only
      rw [hino, h.2.2.2.2.1]

theorem fs_list_congr (s t : FSState) (h : ObsEquiv s t) (max_files : Int) :
    fs_list s max_files = fs_list t max_files := by
  have hfold : ∀ (l : List Nat) (acc : List (List Nat)),
      l.foldl (fun acc i =>
        if acc.length < max_files.toNat ∧ (s.inodes i).used then
          acc ++ [(s.inodes i).name.take (MAX_FILENAME - 1)]
        else acc) acc =
      l.foldl (fun acc i =>
        if acc.length < max_files.toNat ∧ (t.inodes i).used then
          acc ++ [(t.inodes i).name.take (MAX_FILENAME - 1)]
        else acc) acc := by
    intro l
    induction l with
    | nil => intro acc; rfl
    | cons a rest ih =>
      intro acc
      simp only [List.foldl_cons]
      have hstep : (if acc.length < max_files.toNat ∧ (s.inodes a).used then
          acc ++ [(s.inodes a).name.take (MAX_FILENAME - 1)]
        else acc) =
        (if acc.length < max_files.toNat ∧ (t.inodes a).used then
          acc ++ [(t.inodes a).name.take (MAX_FILENAME - 1)]
        else acc) := by
        by_cases hu : (s.inodes a).used = true
        · rw [h.2.2.2.2.2.2 a hu]
        · have hsu : (s.inodes a).used = false := by simpa using hu
          have htu : (t.inodes a).used = false := by
            rw [← h.2.2.2.2.2.1 a]; exact hsu
          rw [if_neg (by rw [hsu]; simp), if_neg (by rw [htu]; simp)]
      rw [hstep, ih]
  by_cases hm : t.mounted = true
  · have hsm : s.mounted = true := by rw [h.1]; exact hm
    rw [fs_list, fs_list, if_neg (by simp [hsm]), if_neg (by simp [hm])]
    rw [hfold]
  · have hs : fs_list s max_files = (-1, []) := by
      rw [fs_list, if_pos (by rw [h.1]; simpa using hm)]
    have ht : fs_list t max_files = (-1, []) := by
      rw [fs_list, if_pos (by simpa using hm)]
    rw [hs, ht]

theorem mark_block_as_free_bitmap_congr (s t : FSState) (b : Nat)
    (hm : s.mounted = t.mounted) (hbm : s.bitmap = t.bitmap) :
    (mark_block_as_free s b).bitmap = (mark_block_as_free t b).bitmap := by
  have hvs : validate_block_number_and_filesystem s b
      = validate_block_number_and_filesystem t b := by
    rw [validate_block_number_and_filesystem, validate_block_number_and_filesystem, hm]
  by_cases ht0 : validate_block_number_and_filesystem t b ≠ 0
  · have hs : (mark_block_as_free s b).bitmap = s.bitmap := by
      rw [mark_block_as_free, if_pos (by rw [hvs]; exact ht0)]
    have ht : (mark_block_as_free t b).bitmap = t.bitmap := by
      rw [mark_block_as_free, if_pos ht0]
    rw [hs, ht, hbm]
  · have hs : (mark_block_as_free s b).bitmap = Function.update s.bitmap b false := by
      rw [mark_block_as_free, if_neg (by rw [hvs]; exact ht0)]
    have ht : (mark_block_as_free t b).bitmap = Function.update t.bitmap b false := by
      rw [mark_block_as_free, if_neg ht0]
    rw [hs, ht, hbm]

theorem mark_block_as_used_bitmap_congr (s t : FSState) (b : Nat)
    (hm : s.mounted = t.mounted) (hbm : s.bitmap = t.bitmap) :
    (mark_block_as_used s b).bitmap = (mark_block_as_used t b).bitmap := by
  have hvs : validate_block_number_and_filesystem s b
      = validate_block_number_and_filesystem t b := by
    rw [validate_block_number_and_filesystem, validate_block_number_and_filesystem, hm]
  by_cases ht0 : validate_block_number_and_filesystem t b ≠ 0
  · have hs : (mark_block_as_used s b).bitmap = s.bitmap := by
      rw [mark_block_as_used, if_pos (by rw [hvs]; exact ht0)]
    have ht : (mark_block_as_used t b).bitmap = t.bitmap := by
      rw [mark_block_as_used, if_pos ht0]
    rw [hs, ht, hbm]
  · have hs : (mark_block_as_used s b).bitmap = Function.update s.bitmap b true := by
      rw [mark_block_as_used, if_neg (by rw [hvs]; exact ht0)]
    have ht : (mark_block_as_used t b).bitmap = Function.update t.bitmap b true := by
      rw [mark_block_as_used, if_neg ht0]
    rw [hs, ht, hbm]

theorem rollback_step_parts (p : FSState × inode) (r : Nat) :
    (allocate_blocks_rollback_step p r).1.inodes = p.1.inodes ∧
    (allocate_blocks_rollback_step p r).1.data = p.1.data ∧
    (allocate_blocks_rollback_step p r).1.free_inodes = p.1.free_inodes ∧
    (allocate_blocks_rollback_step p r).1.mounted = p.1.mounted := by
  have hp := mark_block_as_free_parts p.1 (p.2.blk r)
  exact ⟨hp.2.2.2.1, hp.2.2.2.2, hp.2.2.1, hp.1⟩

theorem rollback_fold_parts (l : List Nat) :
    ∀ p : FSState × inode,
      (l.foldl allocate_blocks_rollback_step p).1.inodes = p.1.inodes ∧
      (l.foldl allocate_blocks_rollback_step p).1.data = p.1.data ∧
      (l.foldl allocate_blocks_rollback_step p).1.free_inodes = p.1.free_inodes ∧
      (l.foldl allocate_blocks_rollback_step p).1.mounted = p.1.mounted := by
  induction l with
  | nil => intro p; exact ⟨rfl, rfl, rfl, rfl⟩
  | cons a t ih =>
    intro p
    have h1 := rollback_step_parts p a
    have h2 := ih (allocate_blocks_rollback_step p a)
    simp only [List.foldl_cons]
    exact ⟨by rw [h2.1, h1.1], by rw [h2.2.1, h1.2.1], by rw [h2.2.2.1, h1.2.2.1],
      by rw [h2.2.2.2, h1.2.2.2]⟩

theorem rollback_fold_core (l : List Nat) :
    ∀ (s t : FSState) (nd : inode),
      s.mounted = t.mounted → s.free_blocks = t.free_blocks → s.bitmap = t.bitmap →
      (l.foldl allocate_blocks_rollback_step (s, nd)).2
          = (l.foldl allocate_blocks_rollback_step (t, nd)).2 ∧
      (l.foldl allocate_blocks_rollback_step (s, nd)).1.mounted
          = (l.foldl allocate_blocks_rollback_step (t, nd)).1.mounted ∧
      (l.foldl allocate_blocks_rollback_step (s, nd)).1.free_blocks
          = (l.foldl allocate_blocks_rollback_step (t, nd)).1.free_blocks ∧
      (l.foldl allocate_blocks_rollback_step (s, nd)).1.bitmap
          = (l.foldl allocate_blocks_rollback_step (t, nd)).1.bitmap := by
  induction l with
  | nil => intro s t nd hm hfb hbm; exact ⟨rfl, hm, hfb, hbm⟩
  | cons a rest ih =>
    intro s t nd hm hfb hbm
    simp only [List.foldl_cons]
    have hms := (mark_block_as_free_parts s (nd.blk a)).1
    have hmt := (mark_block_as_free_parts t (nd.blk a)).1
    have hfs := (mark_block_as_free_parts s (nd.blk a)).2.1
    have hft := (mark_block_as_free_parts t (nd.blk a)).2.1
    have hstep : allocate_blocks_rollback_step (s, nd) a
        = ({ mark_block_as_free s (nd.blk a) with
              free_blocks := (mark_block_as_free s (nd.blk a)).free_blocks + 1 },
           { nd with blk := Function.update nd.blk a 0 }) := rfl
    have hstept : allocate_blocks_rollback_step (t, nd) a
        = ({ mark_block_as_free t (nd.blk a) with
              free_blocks := (mark_block_as_free t (nd.blk a)).free_blocks + 1 },
           { nd with blk := Function.update nd.blk a 0 }) := rfl
    rw [hstep, hstept]
    exact ih _ _ _ (by show (mark_block_as_free s (nd.blk a)).mounted = _; rw [hms, hmt, hm])
      (by show (mark_block_as_free s (nd.blk a)).free_blocks + 1 = _; rw [hfs, hft, hfb])
      (by show (mark_block_as_free s (nd.blk a)).bitmap = _;
          exact mark_block_as_free_bitmap_congr s t (nd.blk a) hm hbm)

theorem allocate_blocks_go_parts :
    ∀ (k j : Nat) (s : FSState) (nd : inode),
      (allocate_blocks_go k j s nd).2.1.inodes = s.inodes ∧
      (allocate_blocks_go k j s nd).2.1.data = s.data ∧
      (allocate_blocks_go k j s nd).2.1.free_inodes = s.free_inodes ∧
      (allocate_blocks_go k j s nd).2.1.mounted = s.mounted := by
  intro k
  induction k with
  | zero => intro j s nd; exact ⟨rfl, rfl, rfl, rfl⟩
  | succ k ih =>
    intro j s nd
    rw [allocate_blocks_go]
    by_cases h : find_free_block s < 0
    · rw [if_pos h]
      have hr := rollback_fold_parts (List.range j) (s, nd)
      exact ⟨hr.1, hr.2.1, hr.2.2.1, hr.2.2.2⟩
    · rw [if_neg h]
      have hmp := mark_block_as_used_parts s (find_free_block s).toNat
      have hih := ih (j + 1)
        { mark_block_as_used s (find_free_block s).toNat with
          free_blocks := (mark_block_as_used s (find_free_block s).toNat).free_blocks - 1 }
        { nd with blk := Function.update nd.blk j (find_free_block s).toNat }
      exact ⟨by rw [hih.1]; exact hmp.2.2.2.1, by rw [hih.2.1]; exact hmp.2.2.2.2,
        by rw [hih.2.2.1]; exact hmp.2.2.1, by rw [hih.2.2.2]; exact hmp.1⟩

theorem allocate_blocks_go_core :
    ∀ (k j : Nat) (s t : FSState) (nd : inode),
      s.mounted = t.mounted → s.free_blocks = t.free_blocks → s.bitmap = t.bitmap →
      (allocate_blocks_go k j s nd).1 = (allocate_blocks_go k j t nd).1 ∧
      (allocate_blocks_go k j s nd).2.2 = (allocate_blocks_go k j t nd).2.2 ∧
      (allocate_blocks_go k j s nd).2.1.mounted = (allocate_blocks_go k j t nd).2.1.mounted ∧
      (allocate_blocks_go k j s nd).2.1.free_blocks
          = (allocate_blocks_go k j t nd).2.1.free_blocks ∧
      (allocate_blocks_go k j s nd).2.1.bitmap = (allocate_blocks_go k j t nd).2.1.bitmap := by
  intro k
  induction k with
  | zero => intro j s t nd hm hfb hbm; exact ⟨rfl, rfl, hm, hfb, hbm⟩
  | succ k ih =>
    intro j s t nd hm hfb hbm
    have hffb : find_free_block s = find_free_block t := find_free_block_core s t hm hbm
    rw [allocate_blocks_go, allocate_blocks_go, ← hffb]
    by_cases h : find_free_block s < 0
    · rw [if_pos h, if_pos h]
      have hr := rollback_fold_core (List.range j) s t nd hm hfb hbm
      exact ⟨rfl, hr.1, hr.2.1, hr.2.2.1, hr.2.2.2⟩
    · rw [if_neg h, if_neg h]
      have hmps := mark_block_as_used_parts s (find_free_block s).toNat
      have hmpt := mark_block_as_used_parts t (find_free_block s).toNat
      exact ih (j + 1) _ _ _
        (by show (mark_block_as_used s _).mounted = (mark_block_as_used t _).mounted;
            rw [hmps.1, hmpt.1, hm])
        (by show (mark_block_as_used s _).free_blocks - 1
              = (mark_block_as_used t _).free_blocks - 1;
            rw [hmps.2.1, hmpt.2.1, hfb])
        (by show (mark_block_as_used s _).bitmap = (mark_block_as_used t _).bitmap;
            exact mark_block_as_used_bitmap_congr s t _ hm hbm)

theorem free_fold_core (l : List Nat) :
    ∀ (s t : FSState) (nd : inode),
      s.mounted = t.mounted → s.free_blocks = t.free_blocks → s.bitmap = t.bitmap →
      (l.foldl free_file_blocks_step (s, nd)).2 = (l.foldl free_file_blocks_step (t, nd)).2 ∧
      (l.foldl free_file_blocks_step (s, nd)).1.mounted
          = (l.foldl free_file_blocks_step (t, nd)).1.mounted ∧
      (l.foldl free_file_blocks_step (s, nd)).1.free_blocks
          = (l.foldl free_file_blocks_step (t, nd)).1.free_blocks ∧
      (l.foldl free_file_blocks_step (s, nd)).1.bitmap
          = (l.foldl free_file_blocks_step (t, nd)).1.bitmap := by
  induction l with
  | nil => intro s t nd hm hfb hbm; exact ⟨rfl, hm, hfb, hbm⟩
  | cons a rest ih =>
    intro s t nd hm hfb hbm
    simp only [List.foldl_cons]
    by_cases hg : nd.blk a ≠ 0 ∧ nd.blk a < MAX_BLOCKS
    · have hstep : free_file_blocks_step (s, nd) a
          = ({ mark_block_as_free s (nd.blk a) with
                free_blocks := (mark_block_as_free s (nd.blk a)).free_blocks + 1 },
             { nd with blk := Function.update nd.blk a 0 }) := by
        rw [free_file_blocks_step, if_pos hg]
      have hstept : free_file_blocks_step (t, nd) a
          = ({ mark_block_as_free t (nd.blk a) with
                free_blocks := (mark_block_as_free t (nd.blk a)).free_blocks + 1 },
             { nd with blk := Function.update nd.blk a 0 }) := by
        rw [free_file_blocks_step, if_pos hg]
      rw [hstep, hstept]
      have hms := (mark_block_as_free_parts s (nd.blk a)).1
      have hmt := (mark_block_as_free_parts t (nd.blk a)).1
      have hfs := (mark_block_as_free_parts s (nd.blk a)).2.1
      have hft := (mark_block_as_free_parts t (nd.blk a)).2.1
      exact ih _ _ _
        (by show (mark_block_as_free s (nd.blk a)).mounted = _; rw [hms, hmt, hm])
        (by show (mark_block_as_free s (nd.blk a)).free_blocks + 1 = _; rw [hfs, hft, hfb])
        (by show (mark_block_as_free s (nd.blk a)).bitmap = _;
            exact mark_block_as_free_bitmap_congr s t (nd.blk a) hm hbm)
    · have hstep : free_file_blocks_step (s, nd) a = (s, nd) := by
        rw [free_file_blocks_step, if_neg hg]
      have hstept : free_file_blocks_step (t, nd) a = (t, nd) := by
        rw [free_file_blocks_step, if_neg hg]
      rw [hstep, hstept]
      exact ih _ _ _ hm hfb hbm

theorem fs_create_obs (s t : FSState) (h : ObsEquiv s t) (n : List Nat) :
    (fs_create s n).1 = (fs_create t n).1 ∧ ObsEquiv (fs_create s n).2 (fs_create t n).2 := by
  by_cases hm : t.mounted = true
  case neg =>
    have hs : fs_create s n = (-3, s) := by
      rw [fs_create, if_pos (by rw [h.1]; simpa using hm)]
    have ht : fs_create t n = (-3, t) := by
      rw [fs_create, if_pos (by simpa using hm)]
    rw [hs, ht]
    exact ⟨rfl, h⟩
  case pos =>
  have hsm : s.mounted = true := by rw [h.1]; exact hm
  by_cases hname : n.length = 0 ∨ n.length > MAX_FILENAME
  · have hs : fs_create s n = (-3, s) := by
      rw [fs_create, if_neg (by simp [hsm]), if_pos hname]
    have ht : fs_create t n = (-3, t) := by
      rw [fs_create, if_neg (by simp [hm]), if_pos hname]
    rw [hs, ht]
    exact ⟨rfl, h⟩
  · by_cases hfind : (find_inode_by_name t n).isSome
    · have hfs : (find_inode_by_name s n).isSome := by
        rw [find_inode_by_name_congr s t h n]; exact hfind
      have hs : fs_create s n = (-1, s) := by
        rw [fs_create, if_neg (by simp [hsm]), if_neg hname, if_pos hfs]
      have ht : fs_create t n = (-1, t) := by
        rw [fs_create, if_neg (by simp [hm]), if_neg hname, if_pos hfind]
      rw [hs, ht]
      exact ⟨rfl, h⟩
    · have hfs : ¬ (find_inode_by_name s n).isSome := by
        rw [find_inode_by_name_congr s t h n]; exact hfind
      have hffc : find_free_inode s = find_free_inode t := find_free_inode_congr s t h
      cases hfree : find_free_inode t with
      | none =>
        have hs : fs_create s n = (-2, s) := by
          rw [fs_create, if_neg (by simp [hsm]), if_neg hname, if_neg hfs, hffc, hfree]
        have ht : fs_create t n = (-2, t) := by
          rw [fs_create, if_neg (by simp [hm]), if_neg hname, if_neg hfind, hfree]
        rw [hs, ht]
        exact ⟨rfl, h⟩
      | some i =>
        have hs : fs_create s n = (0, { s with
            inodes := Function.update s.inodes i
              ⟨true, n.take (MAX_FILENAME - 1), 0, fun _ => 0⟩
            free_inodes := s.free_inodes - 1 }) := by
          rw [fs_create, if_neg (by simp [hsm]), if_neg hname, if_neg hfs, hffc, hfree]
        have ht : fs_create t n = (0, { t with
            inodes := Function.update t.inodes i
              ⟨true, n.take (MAX_FILENAME - 1), 0, fun _ => 0⟩
            free_inodes := t.free_inodes - 1 }) := by
          rw [fs_create, if_neg (by simp [hm]), if_neg hname, if_neg hfind, hfree]
        rw [hs, ht]
        refine ⟨rfl, h.1, h.2.1, ?_, h.2.2.2.1, h.2.2.2.2.1, ?_, ?_⟩
        · show s.free_inodes - 1 = t.free_inodes - 1
          rw [h.2.2.1]
        · intro j
          show (Function.update s.inodes i _ j).used = (Function.update t.inodes i _ j).used
          by_cases hji : j = i
          · subst hji
            rw [Function.update_same, Function.update_same]
          · rw [Function.update_noteq hji, Function.update_noteq hji]
            exact h.2.2.2.2.2.1 j
        · intro j hj
          show Function.update s.inodes i _ j = Function.update t.inodes i _ j
          by_cases hji : j = i
          · subst hji
            rw [Function.update_same, Function.update_same]
          · rw [Function.update_noteq hji, Function.update_noteq hji]
            apply h.2.2.2.2.2.2 j
            have : (Function.update s.inodes i
                (⟨true, n.take (MAX_FILENAME - 1), 0, fun _ => 0⟩ : inode) j).used = true := hj
            rwa [Function.update_noteq hji] at this

theorem free_file_as_fold (s : FSState) (ino : inode) :
    free_file_existing_blocks s ino =
      (List.range ((ino.size + BLOCK_SIZE - 1) / BLOCK_SIZE)).foldl
        free_file_blocks_step (s, ino) := rfl

theorem fs_delete_obs (s t : FSState) (h : ObsEquiv s t) (n : List Nat) :
    (fs_delete s n).1 = (fs_delete t n).1 ∧ ObsEquiv (fs_delete s n).2 (fs_delete t n).2 := by
  by_cases hm : t.mounted = true
  case neg =>
    have hs : fs_delete s n = (-2, s) := by
      rw [fs_delete, if_pos (by rw [h.1]; simpa using hm)]
    have ht : fs_delete t n = (-2, t) := by
      rw [fs_delete, if_pos (by simpa using hm)]
    rw [hs, ht]
    exact ⟨rfl, h⟩
  case pos =>
  have hsm : s.mounted = true := by rw [h.1]; exact hm
  by_cases hname : n.length = 0 ∨ n.length > MAX_FILENAME
  · have hs : fs_delete s n = (-2, s) := by
      rw [fs_delete, if_neg (by simp [hsm]), if_pos hname]
    have ht : fs_delete t n = (-2, t) := by
      rw [fs_delete, if_neg (by simp [hm]), if_pos hname]
    rw [hs, ht]
    exact ⟨rfl, h⟩
  · cases hfind : find_inode_by_name t n with
    | none =>
      have hfs : find_inode_by_name s n = none := by
        rw [find_inode_by_name_congr s t h n]; exact hfind
      have hs : fs_delete s n = (-1, s) := by
        rw [fs_delete, if_neg (by simp [hsm]), if_neg hname, hfs]
      have ht : fs_delete t n = (-1, t) := by
        rw [fs_delete, if_neg (by simp [hm]), if_neg hname, hfind]
      rw [hs, ht]
      exact ⟨rfl, h⟩
    | some i =>
      have hsfind : find_inode_by_name s n = some i := by
        rw [find_inode_by_name_congr s t h n]; exact hfind
      have hino : s.inodes i = t.inodes i := fs_used_inode_eq s t h n i hsfind hsm
      have hs : fs_delete s n = (0, { (free_file_existing_blocks s (s.inodes i)).1 with
          inodes := Function.update
            (free_file_existing_blocks s (s.inodes i)).1.inodes i zeroInode
          free_inodes := (free_file_existing_blocks s (s.inodes i)).1.free_inodes + 1 }) := by
        rw [fs_delete, if_neg (by simp [hsm]), if_neg hname, hsfind]
      have ht : fs_delete t n = (0, { (free_file_existing_blocks t (s.inodes i)).1 with
          inodes := Function.update
            (free_file_existing_blocks t (s.inodes i)).1.inodes i zeroInode
          free_inodes := (free_file_existing_blocks t (s.inodes i)).1.free_inodes + 1 }) := by
        rw [fs_delete, if_neg (by simp [hm]), if_neg hname, hfind]
        dsimp only
        rw [← hino]
      rw [hs, ht]
      rw [free_file_as_fold s (s.inodes i), free_file_as_fold t (s.inodes i)]
      have hcore := free_fold_core
        (List.range (((s.inodes i).size + BLOCK_SIZE - 1) / BLOCK_SIZE)) s t (s.inodes i)
        h.1 h.2.1 h.2.2.2.1
      have hps := free_fold_parts
        (List.range (((s.inodes i).size + BLOCK_SIZE - 1) / BLOCK_SIZE)) (s, s.inodes i)
      have hpt := free_fold_parts
        (List.range (((s.inodes i).size + BLOCK_SIZE - 1) / BLOCK_SIZE)) (t, s.inodes i)
      refine ⟨rfl, hcore.2.1, hcore.2.2.1, ?_, hcore.2.2.2, ?_, ?_, ?_⟩
      · show _ + (1 : Int) = _ + 1
        rw [hps.1.2.2.2, hpt.1.2.2.2, h.2.2.1]
      · show (_ : FSState).data = (_ : FSState).data
        rw [hps.1.2.2.1, hpt.1.2.2.1, h.2.2.2.2.1]
      · intro j
        show (Function.update ((List.range
            (((s.inodes i).size + BLOCK_SIZE - 1) / BLOCK_SIZE)).foldl
            free_file_blocks_step (s, s.inodes i)).1.inodes i zeroInode j).used
          = (Function.update ((List.range
            (((s.inodes i).size + BLOCK_SIZE - 1) / BLOCK_SIZE)).foldl
            free_file_blocks_step (t, s.inodes i)).1.inodes i zeroInode j).used
        rw [hps.1.2.1, hpt.1.2.1]
        by_cases hji : j = i
        · subst hji
          rw [Function.update_same, Function.update_same]
        · rw [Function.update_noteq hji, Function.update_noteq hji]
          exact h.2.2.2.2.2.1 j
      · intro j hj
        show Function.update ((List.range
            (((s.inodes i).size + BLOCK_SIZE - 1) / BLOCK_SIZE)).foldl
            free_file_blocks_step (s, s.inodes i)).1.inodes i zeroInode j
          = Function.update ((List.range
            (((s.inodes i).size + BLOCK_SIZE - 1) / BLOCK_SIZE)).foldl
            free_file_blocks_step (t, s.inodes i)).1.inodes i zeroInode j
        have hj2 : (Function.update ((List.range
            (((s.inodes i).size + BLOCK_SIZE - 1) / BLOCK_SIZE)).foldl
            free_file_blocks_step (s, s.inodes i)).1.inodes i zeroInode j).used
            = true := hj
        rw [hps.1.2.1, hpt.1.2.1]
        rw [hps.1.2.1] at hj2
        by_cases hji : j = i
        · subst hji
          rw [Function.update_same, Function.update_same]
        · rw [Function.update_noteq hji, Function.update_noteq hji]
          rw [Function.update_noteq hji] at hj2
          exact h.2.2.2.2.2.2 j hj2

theorem fs_write_deep_unfold (s : FSState) (n D : List Nat) (size : Int) (i : Nat)
    (hv : validate_write_operation_parameters s n size = 0)
    (hfind : find_inode_by_name s n = some i)
    (hchk : ¬ check_available_space_for_write_operation s
      ((size.toNat + BLOCK_SIZE - 1) / BLOCK_SIZE) (s.inodes i).size < 0) :
    fs_write s n D size =
      if (allocate_blocks_go ((size.toNat + BLOCK_SIZE - 1) / BLOCK_SIZE) 0
          (free_file_existing_blocks s (s.inodes i)).1
          (free_file_existing_blocks s (s.inodes i)).2).1 < 0 then
        ((allocate_blocks_go ((size.toNat + BLOCK_SIZE - 1) / BLOCK_SIZE) 0
            (free_file_existing_blocks s (s.inodes i)).1
            (free_file_existing_blocks s (s.inodes i)).2).1,
         (allocate_blocks_go ((size.toNat + BLOCK_SIZE - 1) / BLOCK_SIZE) 0
            (free_file_existing_blocks s (s.inodes i)).1
            (free_file_existing_blocks s (s.inodes i)).2).2.1)
      else
        (0, { (write_data_to_allocated_blocks
                (allocate_blocks_go ((size.toNat + BLOCK_SIZE - 1) / BLOCK_SIZE) 0
                  (free_file_existing_blocks s (s.inodes i)).1
                  (free_file_existing_blocks s (s.inodes i)).2).2.1
                (allocate_blocks_go ((size.toNat + BLOCK_SIZE - 1) / BLOCK_SIZE) 0
                  (free_file_existing_blocks s (s.inodes i)).1
                  (free_file_existing_blocks s (s.inodes i)).2).2.2
                D size.toNat ((size.toNat + BLOCK_SIZE - 1) / BLOCK_SIZE)).2 with
              inodes := Function.update
                (write_data_to_allocated_blocks
                  (allocate_blocks_go ((size.toNat + BLOCK_SIZE - 1) / BLOCK_SIZE) 0
                    (free_file_existing_blocks s (s.inodes i)).1
                    (free_file_existing_blocks s (s.inodes i)).2).2.1
                  (allocate_blocks_go ((size.toNat + BLOCK_SIZE - 1) / BLOCK_SIZE) 0
                    (free_file_existing_blocks s (s.inodes i)).1
                    (free_file_existing_blocks s (s.inodes i)).2).2.2
                  D size.toNat ((size.toNat + BLOCK_SIZE - 1) / BLOCK_SIZE)).2.inodes i
                { (allocate_blocks_go ((size.toNat + BLOCK_SIZE - 1) / BLOCK_SIZE) 0
                    (free_file_existing_blocks s (s.inodes i)).1
                    (free_file_existing_blocks s (s.inodes i)).2).2.2 with
                  size := size.toNat } }) := by
  have hfacts := (validate_write_eq_zero_iff s n size).1 hv
  have hsz1 : 1 ≤ size.toNat := by omega
  have hbne : ((size.toNat + BLOCK_SIZE - 1) / BLOCK_SIZE) ≠ 0 := by
    simp only [BLOCK_SIZE]
    omega
  have hw1 : ∀ (s2x : FSState) (ino2 : inode),
      (write_data_to_allocated_blocks s2x ino2 D size.toNat
        ((size.toNat + BLOCK_SIZE - 1) / BLOCK_SIZE)).1 = 0 := by
    intro s2x ino2
    rw [write_data_success s2x ino2 D size.toNat _ (by omega) hbne]
  simp only [fs_write]
  rw [if_neg (by simp [hv]), hfind]
  dsimp only
  rw [if_neg hchk, allocate_blocks_for_file, if_neg hbne]
  rw [hw1, if_neg (show ¬((0 : Int) < 0) by norm_num)]

theorem fs_write_obs (s t : FSState) (h : ObsEquiv s t) (n D : List Nat) (size : Int) :
    (fs_write s n D size).1 = (fs_write t n D size).1 ∧
    ObsEquiv (fs_write s n D size).2 (fs_write t n D size).2 := by
  have hvc : validate_write_operation_parameters s n size
      = validate_write_operation_parameters t n size := by
    rw [validate_write_operation_parameters, validate_write_operation_parameters, h.1]
  by_cases hv : validate_write_operation_parameters t n size = 0
  case neg =>
    have hs := (fs_write_early_error_state s n D size).1 (by rw [hvc]; exact hv)
    have ht := (fs_write_early_error_state t n D size).1 hv
    rw [hs, ht, hvc]
    exact ⟨rfl, h⟩
  case pos =>
  have hvs : validate_write_operation_parameters s n size = 0 := by rw [hvc]; exact hv
  cases hfind : find_inode_by_name t n with
  | none =>
    have hfs : find_inode_by_name s n = none := by
      rw [find_inode_by_name_congr s t h n]; exact hfind
    rw [(fs_write_early_error_state s n D size).2.1 hvs hfs,
      (fs_write_early_error_state t n D size).2.1 hv hfind]
    exact ⟨rfl, h⟩
  | some i =>
    have hsfind : find_inode_by_name s n = some i := by
      rw [find_inode_by_name_congr s t h n]; exact hfind
    have hsm : s.mounted = true := ((validate_write_eq_zero_iff s n size).1 hvs).1
    have hino : s.inodes i = t.inodes i := fs_used_inode_eq s t h n i hsfind hsm
    have hfactst := (validate_write_eq_zero_iff t n size).1 hv
    have hsz1 : 1 ≤ size.toNat := by
      have := hfactst.2.2.2.1
      omega
    have hchkc : check_available_space_for_write_operation s
        ((size.toNat + BLOCK_SIZE - 1) / BLOCK_SIZE) (s.inodes i).size
        = check_available_space_for_write_operation t
        ((size.toNat + BLOCK_SIZE - 1) / BLOCK_SIZE) (t.inodes i).size := by
      rw [check_available_space_for_write_operation,
        check_available_space_for_write_operation, h.2.1, hino]
    by_cases hchk : check_available_space_for_write_operation t
        ((size.toNat + BLOCK_SIZE - 1) / BLOCK_SIZE) (t.inodes i).size < 0
    · have hchks : check_available_space_for_write_operation s
          ((size.toNat + BLOCK_SIZE - 1) / BLOCK_SIZE) (s.inodes i).size < 0 := by
        rw [hchkc]; exact hchk
      rw [(fs_write_early_error_state s n D size).2.2 i hvs hsfind hchks,
        (fs_write_early_error_state t n D size).2.2 i hv hfind hchk, hchkc]
      exact ⟨rfl, h⟩
    · have hchks : ¬ check_available_space_for_write_operation s
          ((size.toNat + BLOCK_SIZE - 1) / BLOCK_SIZE) (s.inodes i).size < 0 := by
        rw [hchkc]; exact hchk
      have hbne : ((size.toNat + BLOCK_SIZE - 1) / BLOCK_SIZE) ≠ 0 := by
        simp only [BLOCK_SIZE]
        omega
      have hds := fs_write_deep_unfold s n D size i hvs hsfind hchks
      have hdt := fs_write_deep_unfold t n D size i hv hfind hchk
      rw [← hino] at hdt
      rw [free_file_as_fold s (s.inodes i)] at hds
      rw [free_file_as_fold t (s.inodes i)] at hdt
      set bn := (size.toNat + BLOCK_SIZE - 1) / BLOCK_SIZE with hbn2
      set cnt2 := ((s.inodes i).size + BLOCK_SIZE - 1) / BLOCK_SIZE with hcnt2
      set Fs := (List.range cnt2).foldl free_file_blocks_step (s, s.inodes i) with hFs
      set Ft := (List.range cnt2).foldl free_file_blocks_step (t, s.inodes i) with hFt
      have hfc := free_fold_core (List.range cnt2) s t (s.inodes i) h.1 h.2.1 h.2.2.2.1
      rw [← hFs, ← hFt] at hfc
      have hfps := free_fold_parts (List.range cnt2) (s, s.inodes i)
      have hfpt := free_fold_parts (List.range cnt2) (t, s.inodes i)
      rw [← hFs] at hfps
      rw [← hFt] at hfpt
      rw [← hfc.1] at hdt
      have hac := allocate_blocks_go_core bn 0 Fs.1 Ft.1 Fs.2 hfc.2.1 hfc.2.2.1 hfc.2.2.2
      rw [← hac.1, ← hac.2.1] at hdt
      set As := allocate_blocks_go bn 0 Fs.1 Fs.2 with hAs
      set At := allocate_blocks_go bn 0 Ft.1 Fs.2 with hAt
      have hpas := allocate_blocks_go_parts bn 0 Fs.1 Fs.2
      have hpat := allocate_blocks_go_parts bn 0 Ft.1 Fs.2
      rw [← hAs] at hpas
      rw [← hAt] at hpat
      have hsinodes : As.2.1.inodes = s.inodes := by rw [hpas.1, hfps.1.2.1]
      have htinodes : At.2.1.inodes = t.inodes := by rw [hpat.1, hfpt.1.2.1]
      have hsdata : As.2.1.data = s.data := by rw [hpas.2.1, hfps.1.2.2.1]
      have htdata : At.2.1.data = t.data := by rw [hpat.2.1, hfpt.1.2.2.1]
      have hsfi : As.2.1.free_inodes = s.free_inodes := by rw [hpas.2.2.1, hfps.1.2.2.2]
      have htfi : At.2.1.free_inodes = t.free_inodes := by rw [hpat.2.2.1, hfpt.1.2.2.2]
      by_cases hlt : As.1 < 0
      · rw [if_pos hlt] at hds hdt
        rw [hds, hdt]
        refine ⟨rfl, hac.2.2.1, hac.2.2.2.1, ?_, hac.2.2.2.2, ?_, ?_, ?_⟩
        · rw [hsfi, htfi, h.2.2.1]
        · rw [hsdata, htdata, h.2.2.2.2.1]
        · intro j
          rw [hsinodes, htinodes]
          exact h.2.2.2.2.2.1 j
        · intro j hj
          rw [hsinodes] at hj ⊢
          rw [htinodes]
          exact h.2.2.2.2.2.2 j hj
      · rw [if_neg hlt] at hds hdt
        rw [hds, hdt]
        refine ⟨rfl, ?_⟩
        have hW2s := write_data_success As.2.1 As.2.2 D size.toNat bn (by omega) hbne
        have hW2t := write_data_success At.2.1 As.2.2 D size.toNat bn (by omega) hbne
        have hWs_m : (write_data_to_allocated_blocks As.2.1 As.2.2 D size.toNat bn).2.mounted
            = As.2.1.mounted := by rw [hW2s]
        have hWt_m : (write_data_to_allocated_blocks At.2.1 As.2.2 D size.toNat bn).2.mounted
            = At.2.1.mounted := by rw [hW2t]
        have hWs_fb : (write_data_to_allocated_blocks As.2.1 As.2.2 D
            size.toNat bn).2.free_blocks = As.2.1.free_blocks := by rw [hW2s]
        have hWt_fb : (write_data_to_allocated_blocks At.2.1 As.2.2 D
            size.toNat bn).2.free_blocks = At.2.1.free_blocks := by rw [hW2t]
        have hWs_bm : (write_data_to_allocated_blocks As.2.1 As.2.2 D size.toNat bn).2.bitmap
            = As.2.1.bitmap := by rw [hW2s]
        have hWt_bm : (write_data_to_allocated_blocks At.2.1 As.2.2 D size.toNat bn).2.bitmap
            = At.2.1.bitmap := by rw [hW2t]
        have hWs_fi : (write_data_to_allocated_blocks As.2.1 As.2.2 D
            size.toNat bn).2.free_inodes = As.2.1.free_inodes := by rw [hW2s]
        have hWt_fi : (write_data_to_allocated_blocks At.2.1 As.2.2 D
            size.toNat bn).2.free_inodes = At.2.1.free_inodes := by rw [hW2t]
        have hWs_i : (write_data_to_allocated_blocks As.2.1 As.2.2 D size.toNat bn).2.inodes
            = As.2.1.inodes := by rw [hW2s]
        have hWt_i : (write_data_to_allocated_blocks At.2.1 As.2.2 D size.toNat bn).2.inodes
            = At.2.1.inodes := by rw [hW2t]
        have hWs_d : (write_data_to_allocated_blocks As.2.1 As.2.2 D size.toNat bn).2.data
            = (List.range bn).foldl
              (fun d block_iterator => Function.update d (As.2.2.blk block_iterator)
                (fun off => if block_iterator * BLOCK_SIZE + off < size.toNat ∧
                    off < BLOCK_SIZE
                  then D.getD (block_iterator * BLOCK_SIZE + off) 0 else 0))
              As.2.1.data := by rw [hW2s]
        have hWt_d : (write_data_to_allocated_blocks At.2.1 As.2.2 D size.toNat bn).2.data
            = (List.range bn).foldl
              (fun d block_iterator => Function.update d (As.2.2.blk block_iterator)
                (fun off => if block_iterator * BLOCK_SIZE + off < size.toNat ∧
                    off < BLOCK_SIZE
                  then D.getD (block_iterator * BLOCK_SIZE + off) 0 else 0))
              At.2.1.data := by rw [hW2t]
        refine ⟨?_, ?_, ?_, ?_, ?_, ?_, ?_⟩
        · show (write_data_to_allocated_blocks As.2.1 As.2.2 D size.toNat bn).2.mounted = _
          rw [hWs_m, hWt_m]
          exact hac.2.2.1
        · show (write_data_to_allocated_blocks As.2.1 As.2.2 D size.toNat bn).2.free_blocks = _
          rw [hWs_fb, hWt_fb]
          exact hac.2.2.2.1
        · show (write_data_to_allocated_blocks As.2.1 As.2.2 D
            size.toNat bn).2.free_inodes = _
          rw [hWs_fi, hWt_fi, hsfi, htfi, h.2.2.1]
        · show (write_data_to_allocated_blocks As.2.1 As.2.2 D size.toNat bn).2.bitmap = _
          rw [hWs_bm, hWt_bm]
          exact hac.2.2.2.2
        · show (write_data_to_allocated_blocks As.2.1 As.2.2 D size.toNat bn).2.data = _
          rw [hWs_d, hWt_d, hsdata, htdata, h.2.2.2.2.1]
        · intro j
          dsimp only
          rw [hWs_i, hWt_i, hsinodes, htinodes]
          by_cases hji : j = i
          · subst hji
            rw [Function.update_same, Function.update_same]
          · rw [Function.update_noteq hji, Function.update_noteq hji]
            exact h.2.2.2.2.2.1 j
        · intro j hj
          dsimp only at hj ⊢
          rw [hWs_i, hsinodes] at hj
          rw [hWs_i, hWt_i, hsinodes, htinodes]
          by_cases hji : j = i
          · subst hji
            rw [Function.update_same, Function.update_same]
          · rw [Function.update_noteq hji, Function.update_noteq hji]
            rw [Function.update_noteq hji] at hj
            exact h.2.2.2.2.2.2 j hj

theorem runOp_obs (s t : FSState) (h : ObsEquiv s t) (op : FSOp) :
    (runOp s op).1 = (runOp t op).1 ∧ ObsEquiv (runOp s op).2 (runOp t op).2 := by
  cases op with
  | create n =>
    have hc := fs_create_obs s t h n
    simp only [runOp]
    exact ⟨by rw [hc.1], hc.2⟩
  | list m =>
    simp only [runOp, fs_list_congr s t h m]
    exact ⟨trivial, h⟩
  | read n sz =>
    simp only [runOp, fs_read_congr s t h n sz]
    exact ⟨trivial, h⟩
  | write n d sz =>
    have hc := fs_write_obs s t h n d sz
    simp only [runOp]
    exact ⟨by rw [hc.1], hc.2⟩
  | delete n =>
    have hc := fs_delete_obs s t h n
    simp only [runOp]
    exact ⟨by rw [hc.1], hc.2⟩

theorem runOps_obs (ops : List FSOp) : ∀ (s t : FSState), ObsEquiv s t →
    runOps s ops = runOps t ops := by
  induction ops with
  | nil => intro s t _; rfl
  | cons op rest ih =>
    intro s t h
    have hc := runOp_obs s t h op
    simp only [runOps]
    rw [hc.1, ih _ _ hc.2]

theorem create_delete_roundtrip_state (s : FSState) (n : List Nat) (i : Nat)
    (hm : s.mounted = true) (hcs : CStr n) (hlen1 : n.length ≠ 0)
    (hlen2 : n.length ≤ MAX_FILENAME - 1)
    (hfind : find_inode_by_name s n = none) (hfree : find_free_inode s = some i) :
    ObsEquiv (fs_delete (fs_create s n).2 n).2 s := by
  have hiMF := (find_free_inode_some_iff s hm i).1 hfree
  have htake : n.take (MAX_FILENAME - 1) = n := List.take_of_length_le hlen2
  have hname : ¬(n.length = 0 ∨ n.length > MAX_FILENAME) := by
    push_neg
    refine ⟨hlen1, ?_⟩
    simp only [MAX_FILENAME] at hlen2 ⊢
    omega
  have hc := fs_create_success_state s n i hm hlen1
    (by simp only [MAX_FILENAME] at hlen2 ⊢; omega) hfind hfree
  have hstep : ∀ S1 : FSState, S1.mounted = true →
      S1.inodes = Function.update s.inodes i
        (⟨true, n.take (MAX_FILENAME - 1), 0, fun _ => 0⟩ : inode) →
      S1.free_inodes = s.free_inodes - 1 →
      S1.free_blocks = s.free_blocks →
      S1.bitmap = s.bitmap →
      S1.data = s.data →
      ObsEquiv (fs_delete S1 n).2 s := by
    intro S1 hm1 hSi hSfi hSfb hSbm hSd
    have hS1idx : S1.inodes i
        = (⟨true, n.take (MAX_FILENAME - 1), 0, fun _ => 0⟩ : inode) := by
      rw [hSi]
      exact Function.update_same i _ s.inodes
    have hfind1 : find_inode_by_name S1 n = some i := by
      rw [find_inode_by_name_some_iff S1 n hm1 i]
      refine ⟨hiMF.1, ?_, ?_⟩
      · rw [hS1idx]
        simp [htake, compare_strings_self]
      · intro j hj
        rw [hSi, Function.update_noteq (show j ≠ i by omega)]
        exact (find_inode_by_name_none_iff s n hm).1 hfind j
          (by have := hiMF.1; omega)
    have hsz : (S1.inodes i).size = 0 := by rw [hS1idx]
    have hff : free_file_existing_blocks S1 (S1.inodes i) = (S1, S1.inodes i) := by
      rw [free_file_as_fold]
      have hcnt : ((S1.inodes i).size + BLOCK_SIZE - 1) / BLOCK_SIZE = 0 := by
        rw [hsz]
        decide
      rw [hcnt]
      rfl
    have hdel : fs_delete S1 n = (0,
        { S1 with inodes := Function.update S1.inodes i zeroInode,
                  free_inodes := S1.free_inodes + 1 }) := by
      rw [fs_delete, if_neg (by simp [hm1]), if_neg hname, hfind1]
      dsimp only
      rw [hff]
    rw [hdel]
    refine ⟨?_, ?_, ?_, ?_, ?_, ?_, ?_⟩
    · show S1.mounted = s.mounted
      rw [hm1, hm]
    · exact hSfb
    · show S1.free_inodes + 1 = s.free_inodes
      rw [hSfi]
      omega
    · exact hSbm
    · exact hSd
    · intro j
      show (Function.update S1.inodes i zeroInode j).used = _
      by_cases hji : j = i
      · subst hji
        rw [Function.update_same, hiMF.2.1]
        rfl
      · rw [Function.update_noteq hji, hSi, Function.update_noteq hji]
    · intro j hj
      have hj2 : (Function.update S1.inodes i zeroInode j).used = true := hj
      show Function.update S1.inodes i zeroInode j = _
      by_cases hji : j = i
      · subst hji
        rw [Function.update_same] at hj2
        exact absurd hj2 (by simp [zeroInode])
      · rw [Function.update_noteq hji, hSi, Function.update_noteq hji]
  rw [hc]
  exact hstep _ hm rfl rfl rfl rfl rfl

/-- Claim C8: from any mounted state in which the NUL-free name `n` is valid
(non-empty, at most `MAX_FILENAME - 1` bytes) and not present, if
`fs_create n` succeeds then `fs_create n` followed by `fs_delete n` yields a
state the public API cannot distinguish from the original: every subsequent
sequence of `fs_create`/`fs_list`/`fs_read`/`fs_write`/`fs_delete` calls
returns exactly the same outputs it would return from the original state. -/
theorem create_then_delete_indistinguishable (s : FSState) (n : List Nat)
    (hm : s.mounted = true) (hcs : CStr n) (hlen1 : n.length ≠ 0)
    (hlen2 : n.length ≤ MAX_FILENAME - 1)
    (hfind : find_inode_by_name s n = none)
    (hsucc : (fs_create s n).1 = 0) (ops : List FSOp) :
    runOps (fs_delete (fs_create s n).2 n).2 ops = runOps s ops := by
  obtain ⟨i, hfree⟩ : ∃ i, find_free_inode s = some i := by
    cases hfree0 : find_free_inode s with
    | some i => exact ⟨i, rfl⟩
    | none =>
      exfalso
      have hname : ¬(n.length = 0 ∨ n.length > MAX_FILENAME) := by
        push_neg
        refine ⟨hlen1, ?_⟩
        simp only [MAX_FILENAME] at hlen2 ⊢
        omega
      rw [fs_create, if_neg (by simp [hm]), if_neg hname,
        if_neg (by simp [hfind]), hfree0] at hsucc
      simp at hsucc
  exact runOps_obs ops _ s
    (create_delete_roundtrip_state s n i hm hcs hlen1 hlen2 hfind hfree)

theorem create_then_delete_indistinguishable_witness :
    fs_format_state.mounted = true ∧ CStr [97] ∧ ([97] : List Nat).length ≠ 0 ∧
    ([97] : List Nat).length ≤ MAX_FILENAME - 1 ∧
    find_inode_by_name fs_format_state [97] = none ∧
    (fs_create fs_format_state [97]).1 = 0 ∧
    runOps (fs_delete (fs_create fs_format_state [97]).2 [97]).2 [FSOp.list 256] =
      runOps fs_format_state [FSOp.list 256] := by
  have hcs : CStr [97] := by
    intro b hb
    simp only [List.mem_singleton] at hb
    omega
  have hfind : find_inode_by_name fs_format_state [97] = none := by decide
  have hsucc : (fs_create fs_format_state [97]).1 = 0 := by decide
  exact ⟨rfl, hcs, by decide, by decide, hfind, hsucc,
    create_then_delete_indistinguishable fs_format_state [97] rfl hcs (by decide)
      (by decide) hfind hsucc [FSOp.list 256]⟩
